import Mathlib

/-!
# iec2lib: the command and host-link layer (`interface.cpp`)

A shallow embedding of `Interface` from `src/interface.cpp`.

* Bytes are naturals; values computed in wider C arithmetic are reduced
  `% 256` (`byte`) or `% 65536` (`word`) where they are stored.
* `serCmdIOBuf` is a function from index to byte.
* The serial transport `COMPORT` is a queue `hostIn` of bytes the host
  delivers and a log `hostOut` of the write calls made, oldest first.
* The bus driver `m_iec` is a log `busOut` of the bytes handed to it, a
  script `busAccept` of the results its sends return, and a script `busIn`
  of the bytes it receives, each with the driver state after the receive.
* Loops that the source does not bound take a fuel argument and give
  `none` when it runs out.
* `noInterrupts()`, `interrupts()` and `COMPORT.flush()` change nothing in
  this state and are left out.
* `handler` takes what `m_iec.checkATN(m_cmd)` gave, the classification and
  the command record, as arguments. The record is a value of its own: the bytes
  it occupies from `serCmdIOBuf[128]` on are not mirrored in the buffer, and no
  function reads the buffer there before writing it.
-/

namespace Iec2lib

/-- One call into the sending side of the bus driver. -/
inductive BusEv where
  | send (b : Nat)
  | sendEOI (b : Nat)
  | sendFNF
  deriving DecidableEq, Repr

/-- The members of `Interface`, the scratch buffer, and the two peers. -/
structure State where
  /-- the buffer `char serCmdIOBuf[256]` -/
  serCmdIOBuf : Nat → Nat
  /-- bytes the host will deliver on `COMPORT`, next first -/
  hostIn : List Nat
  /-- write calls made on `COMPORT`, oldest first -/
  hostOut : List (List Nat)
  /-- calls made to `send`, `sendEOI`, `sendFNF`, oldest first -/
  busOut : List BusEv
  /-- results of the coming `send` and `sendEOI` calls; `true` once used up -/
  busAccept : List Bool
  /-- bytes the coming `receive` calls return, each with the driver state it leaves -/
  busIn : List (Nat × Nat)
  /-- what `m_iec.state()` returns -/
  iecState : Nat
  /-- what `m_iec.deviceNumber()` returns -/
  deviceNumber : Nat
  m_openState : Nat
  m_queuedError : Nat

/-! ## Character codes used by the source -/

abbrev chCR : Nat := 13      -- '\r'
abbrev chColon : Nat := 58   -- ':'
abbrev chGT : Nat := 62      -- '>'
abbrev chB : Nat := 66       -- 'B'
abbrev chC : Nat := 67       -- 'C'
abbrev chE : Nat := 69       -- 'E'
abbrev chL : Nat := 76       -- 'L'
abbrev chN : Nat := 78       -- 'N'
abbrev chS : Nat := 83       -- 'S'
abbrev chW : Nat := 87       -- 'W'
abbrev chi : Nat := 105      -- 'i'
abbrev chl : Nat := 108      -- 'l'
abbrev chn : Nat := 110      -- 'n'

/-! ## The scratch buffer -/

/-- Store `bs` at `buf[off ..]`, leaving every other index as it was. -/
def bufStore (buf : Nat → Nat) (off : Nat) (bs : List Nat) : Nat → Nat :=
  fun j => if j < off then buf j else bs.getD (j - off) (buf j)

/-- The bytes `buf[0 .. n-1]`. -/
def bufBytes (buf : Nat → Nat) (n : Nat) : List Nat :=
  (List.range n).map buf

/-- The bytes of a string literal. -/
def strBytes (s : String) : List Nat :=
  s.toList.map Char.toNat

/-- Store `bs` at `serCmdIOBuf[off ..]`. -/
def bufSet (off : Nat) (bs : List Nat) (s : State) : State :=
  { s with serCmdIOBuf := bufStore s.serCmdIOBuf off bs }

/-- The calls `strcpy_P(serCmdIOBuf, msg)` and `sprintf_P(serCmdIOBuf, ...)`: the text and its NUL. -/
def bufText (msg : List Nat) (s : State) : State :=
  bufSet 0 (msg ++ [0]) s

/-- A `%d` or `%u` field for a non-negative value. -/
def decBytes (n : Nat) : List Nat :=
  strBytes (toString n)

/-! ## `COMPORT`: the Arduino `Stream` over the host link -/

/-- The call `COMPORT.write(b)`: one byte. -/
def comWrite (b : Nat) (s : State) : State :=
  { s with hostOut := s.hostOut ++ [[b % 256]] }

/-- The calls `COMPORT.write(str)` and `COMPORT.print(str)`: the bytes of the text. -/
def comWriteStr (bs : List Nat) (s : State) : State :=
  { s with hostOut := s.hostOut ++ [bs] }

/-- The call `COMPORT.write((const byte*)serCmdIOBuf, n)`. -/
def comWriteBuf (n : Nat) (s : State) : State :=
  { s with hostOut := s.hostOut ++ [bufBytes s.serCmdIOBuf n] }

/-- The call `COMPORT.readBytes(serCmdIOBuf, n)`: up to `n` bytes go to the start of the
buffer; the count read is returned and is smaller than `n` when the host has no
more to give before the timeout. -/
def comReadBytes (n : Nat) (s : State) : Nat × State :=
  ((s.hostIn.take n).length,
   { s with serCmdIOBuf := bufStore s.serCmdIOBuf 0 (s.hostIn.take n),
            hostIn := s.hostIn.drop n })

/-- The loop of `Stream::readBytesUntil`: bytes up to the terminator, which is
consumed and not stored; at most `n` bytes. Returns what was stored and what is left. -/
def takeUntil (t : Nat) : Nat → List Nat → List Nat × List Nat
  | 0, rest => ([], rest)
  | _ + 1, [] => ([], [])
  | n + 1, c :: rest =>
    if c = t then ([], rest)
    else ((takeUntil t n rest).1.cons c, (takeUntil t n rest).2)

/-- The call `COMPORT.readBytesUntil(t, serCmdIOBuf, n)`. -/
def comReadBytesUntil (t n : Nat) (s : State) : Nat × State :=
  ((takeUntil t n s.hostIn).1.length,
   { s with serCmdIOBuf := bufStore s.serCmdIOBuf 0 (takeUntil t n s.hostIn).1,
            hostIn := (takeUntil t n s.hostIn).2 })

/-- The call `COMPORT.available()`: the number of bytes pending. -/
def comAvailable (s : State) : Nat :=
  s.hostIn.length

/-- The call `COMPORT.read()`: drop one pending byte. -/
def comRead (s : State) : State :=
  { s with hostIn := s.hostIn.tail }

/-! ## `m_iec`: the bus driver -/

/-- Modelled from the spec: `IEC::send` of the bus driver, whose code is not
among the sources (byte send of the bus-facing surface). The byte is logged and
the next scripted result is returned. -/
def iecSend (b : Nat) (s : State) : Bool × State :=
  (s.busAccept.headD true,
   { s with busOut := s.busOut ++ [BusEv.send b], busAccept := s.busAccept.tail })

/-- Modelled from the spec: `IEC::sendEOI` of the bus driver, whose code is not
among the sources (end-of-transmission send of the bus-facing surface). -/
def iecSendEOI (b : Nat) (s : State) : Bool × State :=
  (s.busAccept.headD true,
   { s with busOut := s.busOut ++ [BusEv.sendEOI b], busAccept := s.busAccept.tail })

/-- Modelled from the spec: `IEC::sendFNF` of the bus driver, whose code is not
among the sources (the file-not-found signal). -/
def iecSendFNF (s : State) : State :=
  { s with busOut := s.busOut ++ [BusEv.sendFNF] }

/-- Modelled from the spec: `IEC::receive` of the bus driver, whose code is not
among the sources (byte receive with a state flag exposing the end-of-transmission
and error bits). The next scripted byte is returned and its state becomes what
`state()` gives; `none` when the script of the bus has nothing left. -/
def iecReceive (s : State) : Option (Nat × State) :=
  match s.busIn with
  | [] => none
  | (b, st) :: rest => some (b, { s with busIn := rest, iecState := st })

/-- Modelled from the spec: `IEC::setDeviceNumber` of the bus driver, whose code
is not among the sources (set of the bus address of the device). -/
def iecSetDeviceNumber (d : Nat) (s : State) : State :=
  { s with deviceNumber := d }

/-! ## `Interface::sendLine` and `Interface::sendListing` -/

/-- The loop `for(i = 0; i < len; i++) m_iec.send(text[i]);` from index `i` on,
with `k` rounds to go. -/
def sendText : Nat → Nat → State → State
  | 0, _, s => s
  | k + 1, i, s => sendText k (i + 1) (iecSend (s.serCmdIOBuf i) s).2

/-- The function `Interface::sendLine(len, serCmdIOBuf, basicPtr)`; returns the new `basicPtr`. -/
def sendLine (len basicPtr : Nat) (s : State) : Nat × State :=
  let p := (basicPtr + (len + 5 - 2)) % 65536
  let s := (iecSend (p &&& 0xFF) s).2
  let s := (iecSend (p >>> 8) s).2
  let s := sendText len 0 s
  (p, (iecSend 0 s).2)

/-- One round of the `do` loop of `sendListing`: returns `resp`, `basicPtr`, the state. -/
def listingBody (basicPtr : Nat) (s : State) : Nat × Nat × State :=
  let s := comWrite chL s
  let s := (comReadBytes 2 s).2
  let resp := s.serCmdIOBuf 0
  if chL = resp then
    let len := s.serCmdIOBuf 1
    let r := comReadBytes len s
    if len = r.1 then
      let q := sendLine len basicPtr r.2
      (resp, q.1, q.2)
    else
      (chE, basicPtr,
        bufText (strBytes "Expected: " ++ decBytes len ++ strBytes " chars, got "
          ++ decBytes r.1 ++ strBytes ".") r.2)
  else if chl ≠ resp then
    let s := bufText (strBytes "Ending at char: " ++ decBytes resp ++ strBytes ".") s
    (resp, basicPtr, (comReadBytes 256 s).2)
  else
    (resp, basicPtr, s)

/-- The `do ... while('L' == resp)` loop of `sendListing`. -/
def listingLoop : Nat → Nat → State → Option State
  | 0, _, _ => none
  | fuel + 1, basicPtr, s =>
    let r := listingBody basicPtr s
    if chL = r.1 then listingLoop fuel r.2.1 r.2.2 else some r.2.2

/-- The function `Interface::sendListing`. -/
def sendListing (fuel : Nat) (s : State) : Option State :=
  let basicPtr := 0x0101
  let s := (iecSend (basicPtr &&& 0xff) s).2
  let s := (iecSend ((basicPtr >>> 8) &&& 0xff) s).2
  match listingLoop fuel basicPtr s with
  | none => none
  | some s =>
    let s := (iecSend 0 s).2
    some (iecSendEOI 0 s).2

/-! ## `Interface::sendStatus` -/

/-- The loop `do readResult = COMPORT.readBytes(serCmdIOBuf, 1);
while(readResult != 1 or serCmdIOBuf[0] != ':')`. -/
def statusSync : Nat → State → Option (Nat × State)
  | 0, _ => none
  | fuel + 1, s =>
    let r := comReadBytes 1 s
    if r.1 ≠ 1 ∨ r.2.serCmdIOBuf 0 ≠ chColon then statusSync fuel r.2 else some r

/-- The function `Interface::sendStatus`. The bound `readResult - 2` of the send loop is an
`int`; the `byte` counter `i` starts at 0, so the loop makes `readResult - 2`
rounds in truncated subtraction and leaves `i` at that value. -/
def sendStatus (fuel : Nat) (s : State) : Option State :=
  let s := comWrite chE s
  let s := comWrite s.m_queuedError s
  match statusSync fuel s with
  | none => none
  | some r =>
    let q := comReadBytesUntil chCR 256 r.2
    let readResult := q.1 % 256
    if readResult = 0 then some q.2
    else
      let s := sendText (readResult - 2) 0 q.2
      some (iecSendEOI (s.serCmdIOBuf (readResult - 2)) s).2

/-! ## `Interface::sendFile` -/

/-- The loop `for(byte i = 0; success and i < len; ++i)` of `sendFile` from
index `i` on with `k = len - i` rounds to go, entered with `success` set.
Returns `success`, `bytesDone` and the state. -/
def sendPayload (resp len : Nat) : Nat → Nat → Nat → State → Bool × Nat × State
  | 0, _, bytesDone, s => (true, bytesDone, s)
  | k + 1, i, bytesDone, s =>
    let r := if resp = chE ∧ i = len - 1 then iecSendEOI (s.serCmdIOBuf i) s
             else iecSend (s.serCmdIOBuf i) s
    if r.1 then sendPayload resp len k (i + 1) ((bytesDone + 1) % 65536) r.2
    else (false, (bytesDone + 1) % 65536, r.2)

/-- One round of the `do` loop of `sendFile`. Returns whether the loop goes
round again (`resp == 'B' and success`, and no `break`), then `success`,
`bytesDone` and the state. -/
def fileBody (bytesDone : Nat) (s : State) : Bool × Bool × Nat × State :=
  let r := comReadBytes 2 s
  if 2 ≠ r.1 then
    (false, false, bytesDone, bufText (strBytes "2 Host bytes expected, stopping") r.2)
  else
    let resp := r.2.serCmdIOBuf 0
    let len := r.2.serCmdIOBuf 1
    if chB = resp ∨ chE = resp then
      let a := comReadBytes len r.2
      if a.1 ≠ len then
        (false, false, bytesDone, bufText (strBytes "Host bytes expected, stopping") a.2)
      else
        let q := sendPayload resp len len 0 bytesDone a.2
        (decide (resp = chB) && q.1, q.1, q.2.1, q.2.2)
    else
      (false, false, bytesDone, bufText (strBytes "Got unexp. cmd resp.char.") r.2)

/-- The `do ... while(resp == 'B' and success)` loop of `sendFile`:
returns `success`, `bytesDone` and the state. -/
def fileLoop : Nat → Nat → State → Option (Bool × Nat × State)
  | 0, _, _ => none
  | fuel + 1, bytesDone, s =>
    let r := fileBody bytesDone s
    if r.1 then fileLoop fuel r.2.2.1 r.2.2.2 else some r.2

/-- The loop `while(COMPORT.available()) COMPORT.read();` over the pending bytes. -/
def drainLoop : List Nat → State → State
  | [], s => s
  | _ :: rest, s => drainLoop rest (comRead s)

/-- The function `Interface::sendFile`. `COMPORT.write(256)` writes the byte 0. -/
def sendFile (fuel : Nat) (s : State) : Option State :=
  let s := comWrite chS s
  let r := comReadBytes 3 s
  if 3 ≠ r.1 ∨ r.2.serCmdIOBuf 0 ≠ chS then some r.2
  else
    let totalSize := ((r.2.serCmdIOBuf 1) <<< 8) ||| (r.2.serCmdIOBuf 2)
    let s := comWrite chN r.2
    let s := comWrite 256 s
    match fileLoop fuel 0 s with
    | none => none
    | some q =>
      let s := if q.1 = false ∧ comAvailable q.2.2 ≠ 0 then drainLoop q.2.2.hostIn q.2.2
               else q.2.2
      if q.1 then
        some (bufText (strBytes "Transferred " ++ decBytes q.2.1 ++ strBytes " of "
          ++ decBytes totalSize ++ strBytes " bytes.") s)
      else some s

/-! ## `Interface::saveFile` -/

/-- The test `(m_iec.state() bitand IEC::eoiFlag) or (m_iec.state() bitand IEC::errorFlag)`
on the driver state `st`. -/
def busDone (eoiFlag errorFlag st : Nat) : Bool :=
  decide ((st &&& eoiFlag) ≠ 0) || decide ((st &&& errorFlag) ≠ 0)

/-- The inner `do` loop of `saveFile`, entered with `bytesInBuffer = n`:
returns `bytesInBuffer`, `done` and the state. `eoiFlag` and `errorFlag` are
the masks `IEC::eoiFlag` and `IEC::errorFlag`, declared with the bus driver and
taken as parameters. -/
def saveInner (eoiFlag errorFlag : Nat) : Nat → Nat → State → Option (Nat × Bool × State)
  | 0, _, _ => none
  | fuel + 1, n, s =>
    match iecReceive s with
    | none => none
    | some r =>
      let s := bufSet n [r.1] r.2
      let done := busDone eoiFlag errorFlag s.iecState
      if n + 1 < 0xf0 ∧ done = false then saveInner eoiFlag errorFlag fuel (n + 1) s
      else some (n + 1, done, s)

/-- The outer `do ... while(not done)` loop of `saveFile`; `inner` is the fuel
of each run of the inner loop. -/
def saveLoop (eoiFlag errorFlag inner : Nat) : Nat → State → Option State
  | 0, _ => none
  | fuel + 1, s =>
    match saveInner eoiFlag errorFlag inner 2 s with
    | none => none
    | some r =>
      let s := bufSet 1 [r.1 % 256] r.2.2
      let s := comWriteBuf (r.1 % 256) s
      if r.2.1 = false then saveLoop eoiFlag errorFlag inner fuel s else some s

/-- The function `Interface::saveFile`; `COMPORT.flush()` changes nothing here. -/
def saveFile (eoiFlag errorFlag fuel : Nat) (s : State) : Option State :=
  let s := bufSet 0 [chW] s
  saveLoop eoiFlag errorFlag fuel fuel s

/-! ## The attention handlers -/

/-- Modelled from the spec: the record `IEC::ATNCmd` (declared with the bus
driver, not among the sources): `code`, `str`, `strLen`. `handleATNCmdCodeOpen`
gets it by reference and it is taken here at its value on entry, `str i` being
the byte `cmd.str[i]`: the handler reads `code` before it writes the part of the
buffer a record placed at `serCmdIOBuf[128]` can share with the frame. -/
structure ATNCmd where
  code : Nat
  str : Nat → Nat
  strLen : Nat

/-- The function `Interface::handleATNCmdCodeOpen`. -/
def handleATNCmdCodeOpen (cmd : ATNCmd) (s : State) : State :=
  let s := bufSet 0 [chi] s
  let s := bufSet 2 [cmd.code &&& 0xF] s
  let length := 3
  let s := bufSet length ((List.range cmd.strLen).map cmd.str) s
  let length := (length + cmd.strLen) % 256
  let s := bufSet 1 [length] s
  comWriteBuf length s

/-- The values of `enum OpenState`. -/
abbrev O_NOTHING : Nat := 0
abbrev O_INFO : Nat := 1
abbrev O_FILE : Nat := 2
abbrev O_DIR : Nat := 3
abbrev O_FILE_ERR : Nat := 4
abbrev O_SAVE_REPLACE : Nat := 5

/-- The loop `do lengthOrResult = '>';
while(lengthOrResult != 1 or serCmdIOBuf[0] != '>')` of `handleATNCmdCodeDataTalk`. -/
def talkSync : Nat → State → Option (Nat × State)
  | 0, _ => none
  | fuel + 1, s =>
    let lengthOrResult := chGT
    if lengthOrResult ≠ 1 ∨ s.serCmdIOBuf 0 ≠ chGT then talkSync fuel s
    else some (lengthOrResult, s)

/-- The function `Interface::handleATNCmdCodeDataTalk`. -/
def handleATNCmdCodeDataTalk (fuel chan : Nat) (s : State) : Option State :=
  let s := bufSet 0 [0] s
  match talkSync fuel s with
  | none => none
  | some r =>
    if r.1 = 0 ∨ chGT ≠ r.2.serCmdIOBuf 0 then
      some (bufText (strBytes "response not sync.") (iecSendFNF r.2))
    else
      let lengthOrResult := r.2.serCmdIOBuf 0
      let wasSuccess := true
      if 15 = chan then
        let s : State := { r.2 with m_queuedError := if wasSuccess then lengthOrResult else 97 }
        match sendStatus fuel s with
        | none => none
        | some s => some { s with m_queuedError := 0 }
      else
        let s : State :=
          { r.2 with m_openState := if wasSuccess then lengthOrResult else O_NOTHING }
        if s.m_openState = O_INFO then sendListing fuel s
        else if s.m_openState = O_FILE_ERR then some (iecSendFNF s)
        else if s.m_openState = O_NOTHING then some (iecSendFNF s)
        else if s.m_openState = O_FILE then sendFile fuel s
        else if s.m_openState = O_DIR then sendListing fuel s
        else some s

/-- The loop `do lengthOrResult = COMPORT.readBytes(serCmdIOBuf, 1);
while(lengthOrResult != 1 or serCmdIOBuf[0] != '>')` of `handleATNCmdCodeDataListen`. -/
def listenSync : Nat → State → Option (Nat × State)
  | 0, _ => none
  | fuel + 1, s =>
    let r := comReadBytes 1 s
    if r.1 ≠ 1 ∨ r.2.serCmdIOBuf 0 ≠ chGT then listenSync fuel r.2 else some r

/-- The function `Interface::handleATNCmdCodeDataListen`. In
`if(lengthOrResult = COMPORT.readBytes(serCmdIOBuf, 2))` the count read is
assigned and tested; `q.1` is that count. -/
def handleATNCmdCodeDataListen (eoiFlag errorFlag fuel : Nat) (s : State) : Option State :=
  let s := bufSet 0 [0] s
  match listenSync fuel s with
  | none => none
  | some r =>
    if r.1 = 0 ∨ chGT ≠ r.2.serCmdIOBuf 0 then
      some (bufText (strBytes "response not sync.") (iecSendFNF r.2))
    else
      let q := comReadBytes 2 r.2
      let lengthOrResult := if q.1 ≠ 0 ∧ 2 = q.1 then q.2.serCmdIOBuf 0 else q.1
      let wasSuccess := decide (q.1 ≠ 0 ∧ 2 = q.1)
      let s : State := { q.2 with m_queuedError := if wasSuccess then lengthOrResult else 97 }
      if 0 = s.m_queuedError then saveFile eoiFlag errorFlag fuel s else some s

/-- The function `Interface::handleATNCmdClose`. -/
def handleATNCmdClose (s : State) : State :=
  let s := comWriteStr [chC] s
  let s := (comReadBytes 2 s).2
  let resp := s.serCmdIOBuf 0
  if chN = resp ∨ chn = resp then
    let len := s.serCmdIOBuf 1
    let r := comReadBytes len s
    if len = r.1 then r.2
    else bufText (strBytes "Exp: " ++ decBytes len ++ strBytes " chars, got "
      ++ decBytes r.1 ++ strBytes ".") r.2
  else if chC = resp then
    if s.deviceNumber ≠ s.serCmdIOBuf 1 then iecSetDeviceNumber (s.serCmdIOBuf 1) s else s
  else s

/-! ## `Interface::handler` -/

/-- Modelled from the spec: the enumerators of `IEC::ATNCheck` (the attention
classifications IDLE, CMD, LISTEN, TALK, ERROR), of `IEC::ATNCommand` (the
command classes in the high nibble of `code`) and the state masks, all declared
with the bus driver, whose code is not among the sources. Their values are
parameters. -/
structure IECConsts where
  ATN_IDLE : Nat
  ATN_CMD : Nat
  ATN_CMD_LISTEN : Nat
  ATN_CMD_TALK : Nat
  ATN_ERROR : Nat
  ATN_CODE_LISTEN : Nat
  ATN_CODE_TALK : Nat
  ATN_CODE_DATA : Nat
  ATN_CODE_CLOSE : Nat
  ATN_CODE_OPEN : Nat
  ATN_CODE_UNLISTEN : Nat
  ATN_CODE_UNTALK : Nat
  eoiFlag : Nat
  errorFlag : Nat

/-- The function `Interface::handler`, after `m_iec.checkATN(m_cmd)` has given the
classification `retATN` and filled in the command `cmd`. Returns the `byte` that
`handler` returns and the state. The `switch` takes the first label equal to
`m_cmd.code bitand 0xF0`; the statement `COMPORT.write(" This is typically an
empty command")` stands after the `if(15 == chan)` statement, not inside it. -/
def handler (K : IECConsts) (fuel retATN : Nat) (cmd : ATNCmd) (s : State) :
    Option (Nat × State) :=
  if retATN = K.ATN_ERROR then
    some (retATN % 256, bufText (strBytes "ATNCMD: IEC_ERROR!") s)
  else if retATN ≠ K.ATN_IDLE then
    let cmd : ATNCmd := { cmd with str := fun i => if i = cmd.strLen then 0 else cmd.str i }
    let s := comWriteStr (strBytes "@ ") s
    let chan := cmd.code &&& 0x0F
    let cls := cmd.code &&& 0xF0
    if cls = K.ATN_CODE_OPEN then
      some (retATN % 256, handleATNCmdCodeOpen cmd s)
    else if cls = K.ATN_CODE_DATA then
      if retATN = K.ATN_CMD_TALK then
        let s := comWriteStr (strBytes "TALK ") s
        let s := if 15 = chan then handleATNCmdCodeOpen cmd s else s
        let s := comWriteStr (strBytes " This is typically an empty command") s
        (handleATNCmdCodeDataTalk fuel chan s).map (fun t => (retATN % 256, t))
      else if retATN = K.ATN_CMD_LISTEN then
        let s := comWriteStr (strBytes " LISTEN ") s
        (handleATNCmdCodeDataListen K.eoiFlag K.errorFlag fuel s).map
          (fun t => (retATN % 256, t))
      else if retATN = K.ATN_CMD then
        some (retATN % 256, handleATNCmdCodeOpen cmd s)
      else some (retATN % 256, s)
    else if cls = K.ATN_CODE_CLOSE then
      some (retATN % 256, handleATNCmdClose s)
    else if cls = K.ATN_CODE_LISTEN then some (retATN % 256, s)
    else if cls = K.ATN_CODE_TALK then some (retATN % 256, s)
    else if cls = K.ATN_CODE_UNLISTEN then some (retATN % 256, s)
    else if cls = K.ATN_CODE_UNTALK then some (retATN % 256, s)
    else some (retATN % 256, s)
  else some (retATN % 256, s)

/-- A choice of values for the enumerators, for concrete runs: the command
bytes of the bus protocol, classifications numbered from 0, masks bit 0 and bit 2. -/
def IECConsts.sample : IECConsts :=
  { ATN_IDLE := 0, ATN_CMD := 1, ATN_CMD_LISTEN := 2, ATN_CMD_TALK := 3, ATN_ERROR := 4,
    ATN_CODE_LISTEN := 0x20, ATN_CODE_TALK := 0x40, ATN_CODE_DATA := 0x60,
    ATN_CODE_CLOSE := 0xE0, ATN_CODE_OPEN := 0xF0, ATN_CODE_UNLISTEN := 0x3F,
    ATN_CODE_UNTALK := 0x5F, eoiFlag := 1, errorFlag := 4 }

/-- A command record with the given `code` and an empty string, for concrete runs. -/
def ATNCmd.ofCode (code : Nat) : ATNCmd :=
  { code := code, str := fun _ => 0, strLen := 0 }

/-- A state with an empty buffer and silent peers, for concrete runs. -/
def State.init : State :=
  { serCmdIOBuf := fun _ => 0, hostIn := [], hostOut := [], busOut := [], busAccept := [],
    busIn := [], iecState := 0, deviceNumber := 8, m_openState := 0, m_queuedError := 0 }

/-! ## Frames and expected outputs used in the statements -/

/-- The frame the host sends for one listing line: `L`, the length, the text. -/
def encLine (t : List Nat) : List Nat :=
  chL :: t.length :: t

/-- The bus bytes of a listing as the specification words them: for each line
the link pointer (low byte, high byte), the text and a zero, the pointer of a
line being the one before it plus the length of the line plus 3, modulo 2^16. -/
def listingOut : Nat → List (List Nat) → List BusEv
  | _, [] => []
  | p, t :: ts =>
    [BusEv.send ((p + t.length + 3) % 65536 % 256), BusEv.send ((p + t.length + 3) % 65536 / 256)]
      ++ t.map BusEv.send ++ [BusEv.send 0] ++ listingOut ((p + t.length + 3) % 65536) ts

/-- The frame the host sends for one file chunk: the tag, the length, the payload. -/
def encChunk (tag : Nat) (t : List Nat) : List Nat :=
  tag :: t.length :: t

/-- Whether a bus call is a byte sent with the end-of-transmission marker. -/
def BusEv.isEOI : BusEv → Bool
  | BusEv.sendEOI _ => true
  | _ => false

/-- The frame `W`, length, payload that `saveFile` writes for the payload `p`:
the length byte counts the two leading bytes as well. -/
def saveFrame (p : List Nat) : List Nat :=
  chW :: (p.length + 2) :: p

/-- The byte a bus call carries, when it carries one. -/
def BusEv.byte? : BusEv → Option Nat
  | BusEv.send b => some b
  | BusEv.sendEOI b => some b
  | BusEv.sendFNF => none

/-- The bytes put on the bus by a sequence of bus calls, in order. -/
def busBytes (evs : List BusEv) : List Nat :=
  evs.filterMap BusEv.byte?

/-- The complete chunks at the head of the bytes the host sends after the size
reply, at most `n` of them, up to and with the first one tagged `E`: a chunk is
a tag `B` or `E`, a length, and that many payload bytes. -/
def hostChunks : Nat → List Nat → List (List Nat)
  | n + 1, tag :: len :: rest =>
    if (chB = tag ∨ chE = tag) ∧ len ≤ rest.length then
      rest.take len :: (if chB = tag then hostChunks n (rest.drop len) else [])
    else []
  | _, _ => []

/-- The state in which the chunk loop of `sendFile` starts after a valid size reply. -/
def sendFileStart (s : State) : State :=
  comWrite 256 (comWrite chN (comReadBytes 3 (comWrite chS s)).2)

/-! # Theorems -/

/-! ## Facts about the buffer and the loops over it -/

theorem bufStore_zero_lt (buf : Nat → Nat) (bs : List Nat) (j : Nat) (h : j < bs.length) :
    bufStore buf 0 bs j = bs.get ⟨j, h⟩ := by
  simp [bufStore, List.getElem?_eq_getElem h]

theorem bufStore_zero_ge (buf : Nat → Nat) (bs : List Nat) (j : Nat) (h : bs.length ≤ j) :
    bufStore buf 0 bs j = buf j := by
  simp [bufStore, List.getElem?_eq_none h]

theorem map_range_bufStore (buf : Nat → Nat) (bs : List Nat) (f : Nat → BusEv) :
    (List.range bs.length).map (fun j => f (bufStore buf 0 bs j)) = bs.map f := by
  apply List.ext_getElem
  · simp
  · intro j h1 h2
    simp at h1
    simp [bufStore, List.getElem?_eq_getElem h1]

theorem bufBytes_bufStore (buf : Nat → Nat) (bs : List Nat) :
    bufBytes (bufStore buf 0 bs) bs.length = bs := by
  apply List.ext_getElem
  · simp [bufBytes]
  · intro j h1 h2
    simp [bufBytes] at h1
    simp [bufBytes, bufStore, List.getElem?_eq_getElem h1]

theorem and_255 (x : Nat) : x &&& 255 = x % 256 :=
  Nat.and_pow_two_sub_one_eq_mod x 8

theorem sendText_eq (k : Nat) : ∀ (i : Nat) (s : State),
    sendText k i s =
      { s with busOut := s.busOut ++ (List.range k).map (fun j => BusEv.send (s.serCmdIOBuf (i + j))),
               busAccept := s.busAccept.drop k } := by
  induction k with
  | zero => intro i s; simp [sendText]
  | succ k ih =>
    intro i s
    rw [sendText, ih]
    simp [iecSend, List.range_succ_eq_map, List.map_map, Function.comp_def, Nat.add_assoc,
      Nat.add_comm 1]


/-! ## The directory listing -/

theorem listingBody_line (t more : List Nat) (p : Nat) (s : State)
    (h : s.hostIn = encLine t ++ more) :
    (listingBody p s).1 = chL ∧ (listingBody p s).2.1 = (p + t.length + 3) % 65536 ∧
    (listingBody p s).2.2.hostIn = more ∧
    (listingBody p s).2.2.busOut = s.busOut ++
      ([BusEv.send ((p + t.length + 3) % 65536 % 256),
        BusEv.send ((p + t.length + 3) % 65536 / 256)]
        ++ t.map BusEv.send ++ [BusEv.send 0]) := by
  have hb := map_range_bufStore (bufStore s.serCmdIOBuf 0 [chL, t.length]) t BusEv.send
  simp [listingBody, comWrite, comReadBytes, h, encLine, bufStore, sendLine, sendText_eq,
    iecSend, Nat.add_assoc, Nat.shiftRight_eq_div_pow] at hb ⊢
  exact ⟨and_255 _, hb⟩


theorem listingBody_end (rest : List Nat) (p : Nat) (s : State)
    (h : s.hostIn = chl :: rest) :
    (listingBody p s).1 = chl ∧ (listingBody p s).2.2.busOut = s.busOut := by
  cases rest <;> simp [listingBody, comWrite, comReadBytes, h, bufStore]

theorem listingLoop_lines (lines : List (List Nat)) : ∀ (fuel p : Nat) (s : State) (rest : List Nat),
    s.hostIn = (lines.map encLine).flatten ++ chl :: rest → lines.length < fuel →
    ∃ s1, listingLoop fuel p s = some s1 ∧ s1.busOut = s.busOut ++ listingOut p lines := by
  induction lines with
  | nil =>
    intro fuel p s rest h hf
    obtain ⟨f, rfl⟩ : ∃ f, fuel = f + 1 := ⟨fuel - 1, by simp at hf; omega⟩
    have hb := listingBody_end rest p s (by simpa using h)
    simp [listingLoop, hb.1, listingOut, hb.2]
  | cons t ts ih =>
    intro fuel p s rest h hf
    obtain ⟨f, rfl⟩ : ∃ f, fuel = f + 1 := ⟨fuel - 1, by simp at hf; omega⟩
    have hb := listingBody_line t ((ts.map encLine).flatten ++ chl :: rest) p s
      (by simpa [List.append_assoc] using h)
    obtain ⟨s1, h1, h2⟩ := ih f (listingBody p s).2.1 (listingBody p s).2.2 rest hb.2.2.1
      (by simp at hf; omega)
    refine ⟨s1, ?_, ?_⟩
    · simp [listingLoop, hb.1, h1]
    · rw [h2, hb.2.2.2, hb.2.1]
      simp [listingOut, List.append_assoc]


theorem listingBody_busOut (p : Nat) (s : State) :
    ∃ mid, (listingBody p s).2.2.busOut = s.busOut ++ mid := by
  unfold listingBody
  simp only []
  split
  · split
    · exact ⟨_, by simp [sendLine, sendText_eq, iecSend, comReadBytes, comWrite]; rfl⟩
    · exact ⟨[], by simp [bufText, bufSet, comReadBytes, comWrite]⟩
  · split
    · exact ⟨[], by simp [bufText, bufSet, comReadBytes, comWrite]⟩
    · exact ⟨[], by simp [comReadBytes, comWrite]⟩

theorem listingLoop_busOut (fuel : Nat) : ∀ (p : Nat) (s s1 : State),
    listingLoop fuel p s = some s1 → ∃ mid, s1.busOut = s.busOut ++ mid := by
  induction fuel with
  | zero => intro p s s1 h; simp [listingLoop] at h
  | succ f ih =>
    intro p s s1 h
    obtain ⟨m1, hm1⟩ := listingBody_busOut p s
    simp only [listingLoop] at h
    split at h
    · obtain ⟨m2, hm2⟩ := ih _ _ _ h
      exact ⟨m1 ++ m2, by rw [hm2, hm1, List.append_assoc]⟩
    · simp at h
      exact ⟨m1, by rw [← h, hm1]⟩

/-- C3. When the host answers the `L` requests with well-formed lines and then
an `l` header, `sendListing` returns, and what it puts on the bus is the load
address 0x01, 0x01, then for each line its link pointer (low, high), its text
and a zero, and then a zero sent with `send` and a zero sent with `sendEOI`; the
pointers start from 0x0101 and grow by the length of the line plus 3, modulo 2^16. -/
theorem sendListing_output (lines : List (List Nat)) (rest : List Nat) (s : State) (fuel : Nat)
    (hlen : ∀ t ∈ lines, t.length < 256)
    (h : s.hostIn = (lines.map encLine).flatten ++ chl :: rest)
    (hf : lines.length < fuel) :
    ∃ s1, sendListing fuel s = some s1 ∧
      s1.busOut = s.busOut ++ [BusEv.send 1, BusEv.send 1] ++ listingOut 0x0101 lines
        ++ [BusEv.send 0, BusEv.sendEOI 0] := by
  have _ := hlen
  obtain ⟨s1, h1, h2⟩ := listingLoop_lines lines fuel 0x0101
    (iecSend ((0x0101 >>> 8) &&& 0xff) (iecSend (0x0101 &&& 0xff) s).2).2 rest
    (by simpa [iecSend] using h) hf
  refine ⟨(iecSendEOI 0 (iecSend 0 s1).2).2, ?_, ?_⟩
  · simp only [sendListing, h1]
  · simp [iecSend, iecSendEOI, h2, (by decide : (257 : Nat) &&& 255 = 1)]

theorem sendListing_output_witness :
    ∃ s1, sendListing 2 { State.init with hostIn := [76, 2, 65, 66, 108, 0] } = some s1 ∧
      s1.busOut = [BusEv.send 1, BusEv.send 1, BusEv.send 6, BusEv.send 1, BusEv.send 65,
        BusEv.send 66, BusEv.send 0, BusEv.send 0, BusEv.sendEOI 0] :=
  sendListing_output [[65, 66]] [0] { State.init with hostIn := [76, 2, 65, 66, 108, 0] } 2
    (by decide) (by rfl) (by decide)

/-- C4. Whenever `sendListing` returns, whatever the host sent and however the
loop ended, the last two calls it made on the bus are `send(0)` and then
`sendEOI(0)`: its bus output is what was there before, what the lines added,
and this pair, with nothing after it. -/
theorem sendListing_ends_with_zero_pair (fuel : Nat) (s s1 : State)
    (h : sendListing fuel s = some s1) :
    ∃ mid, s1.busOut = s.busOut ++ mid ++ [BusEv.send 0, BusEv.sendEOI 0] := by
  simp only [sendListing] at h
  split at h
  · simp at h
  · rename_i s2 h2
    obtain ⟨mid, hm⟩ := listingLoop_busOut _ _ _ _ h2
    simp at h
    refine ⟨[BusEv.send 1, BusEv.send 1] ++ mid, ?_⟩
    rw [← h]
    simp [iecSend, iecSendEOI, hm, (by decide : (257 : Nat) &&& 255 = 1)]

theorem sendListing_ends_with_zero_pair_witness :
    ∃ mid, ((sendListing 1 { State.init with hostIn := [76, 2, 65] }).get (by decide)).busOut
      = ({ State.init with hostIn := [76, 2, 65] } : State).busOut ++ mid
        ++ [BusEv.send 0, BusEv.sendEOI 0] :=
  sendListing_ends_with_zero_pair 1 { State.init with hostIn := [76, 2, 65] } _
    (Option.some_get _).symm


/-! ## Sending a file -/

/-- When the bus accepts every byte, the send loop of `sendFile` succeeds and
logs one call per index of the chunk. -/
theorem sendPayload_ok (resp len : Nat) (k : Nat) : ∀ (i d : Nat) (s : State),
    (∀ b ∈ s.busAccept, b = true) →
    (sendPayload resp len k i d s).1 = true ∧
    (sendPayload resp len k i d s).2.2 =
      { s with busOut := s.busOut ++ (List.range k).map (fun j =>
                 if resp = chE ∧ i + j = len - 1 then BusEv.sendEOI (s.serCmdIOBuf (i + j))
                 else BusEv.send (s.serCmdIOBuf (i + j))),
               busAccept := s.busAccept.drop k } := by
  induction k with
  | zero => intro i d s _; simp [sendPayload]
  | succ k ih =>
    intro i d s hacc
    have hhead : s.busAccept.headD true = true := by
      cases hs : s.busAccept with
      | nil => rfl
      | cons a l => simpa using hacc a (by simp [hs])
    have htail : ∀ b ∈ s.busAccept.tail, b = true := fun b hb =>
      hacc b (List.mem_of_mem_tail hb)
    by_cases hc : resp = chE ∧ i = len - 1
    · have := ih (i + 1) ((d + 1) % 65536) (iecSendEOI (s.serCmdIOBuf i) s).2
        (by simpa [iecSendEOI] using htail)
      simp only [sendPayload, hc, iecSendEOI, hhead] at this ⊢
      simp only [and_self, if_true] at this ⊢
      refine ⟨this.1, ?_⟩
      rw [this.2]
      simp [List.range_succ_eq_map, List.map_map, Function.comp_def, Nat.add_assoc,
        Nat.add_comm 1]
    · have := ih (i + 1) ((d + 1) % 65536) (iecSend (s.serCmdIOBuf i) s).2
        (by simpa [iecSend] using htail)
      simp only [sendPayload, hc, iecSend, hhead] at this ⊢
      simp only [if_false, if_true] at this ⊢
      refine ⟨this.1, ?_⟩
      rw [this.2]
      simp [List.range_succ_eq_map, List.map_map, Function.comp_def, Nat.add_assoc,
        Nat.add_comm 1, hc]

theorem range_map_sendB (buf : Nat → Nat) (t : List Nat) :
    (List.range t.length).map (fun j =>
        if chB = chE ∧ 0 + j = t.length - 1 then BusEv.sendEOI (bufStore buf 0 t (0 + j))
        else BusEv.send (bufStore buf 0 t (0 + j))) = t.map BusEv.send := by
  have h := map_range_bufStore buf t BusEv.send
  simpa using h

theorem range_map_sendE (buf : Nat → Nat) (u : List Nat) (x : Nat) :
    (List.range (u ++ [x]).length).map (fun j =>
        if chE = chE ∧ 0 + j = (u ++ [x]).length - 1
        then BusEv.sendEOI (bufStore buf 0 (u ++ [x]) (0 + j))
        else BusEv.send (bufStore buf 0 (u ++ [x]) (0 + j)))
      = u.map BusEv.send ++ [BusEv.sendEOI x] := by
  apply List.ext_getElem
  · simp
  · intro j h1 h2
    simp at h1
    by_cases hj : j < u.length
    · have hne : j ≠ u.length := by omega
      have hj2 : j < (u.map BusEv.send).length := by simpa using hj
      rw [List.getElem_append_left hj2]
      simp [bufStore, hj, hne, List.getElem?_append_left hj, List.getElem?_eq_getElem hj]
    · have hje : j = u.length := by omega
      subst hje
      simp [bufStore]

theorem fileBody_chunk (tag : Nat) (t more : List Nat) (d : Nat) (s : State)
    (htag : tag = chB ∨ tag = chE) (h : s.hostIn = encChunk tag t ++ more)
    (hacc : ∀ b ∈ s.busAccept, b = true) :
    (fileBody d s).1 = decide (tag = chB) ∧ (fileBody d s).2.1 = true ∧
    (fileBody d s).2.2.2.hostIn = more ∧
    (fileBody d s).2.2.2.hostOut = s.hostOut ∧
    (fileBody d s).2.2.2.busAccept = s.busAccept.drop t.length ∧
    (fileBody d s).2.2.2.busOut = s.busOut ++ (List.range t.length).map (fun j =>
        if tag = chE ∧ 0 + j = t.length - 1
        then BusEv.sendEOI (bufStore (bufStore s.serCmdIOBuf 0 [tag, t.length]) 0 t (0 + j))
        else BusEv.send (bufStore (bufStore s.serCmdIOBuf 0 [tag, t.length]) 0 t (0 + j))) := by
  have hr : (comReadBytes 2 s) = (2, { s with
      serCmdIOBuf := bufStore s.serCmdIOBuf 0 [tag, t.length], hostIn := t ++ more }) := by
    simp [comReadBytes, h, encChunk]
  have ha : (comReadBytes t.length { s with
      serCmdIOBuf := bufStore s.serCmdIOBuf 0 [tag, t.length], hostIn := t ++ more }) =
      (t.length, { s with
        serCmdIOBuf := bufStore (bufStore s.serCmdIOBuf 0 [tag, t.length]) 0 t, hostIn := more }) := by
    simp [comReadBytes]
  have hb0 : bufStore s.serCmdIOBuf 0 [tag, t.length] 0 = tag := by simp [bufStore]
  have hb1 : bufStore s.serCmdIOBuf 0 [tag, t.length] 1 = t.length := by simp [bufStore]
  have hc : chB = tag ∨ chE = tag := by rcases htag with h | h <;> simp [h]
  have hp := sendPayload_ok tag t.length t.length 0 d { s with
        serCmdIOBuf := bufStore (bufStore s.serCmdIOBuf 0 [tag, t.length]) 0 t, hostIn := more }
        hacc
  simp only [fileBody, hr, hb0, hb1, ha, hc]
  simp only [ne_eq, not_true_eq_false, if_false, if_true, hp.1, hp.2, Bool.and_true]
  simp

theorem fileLoop_chunks (bs : List (List Nat)) : ∀ (fuel d : Nat) (s : State) (u : List Nat)
    (x : Nat) (more : List Nat),
    s.hostIn = (bs.map (encChunk chB)).flatten ++ (encChunk chE (u ++ [x]) ++ more) →
    (∀ b ∈ s.busAccept, b = true) → bs.length < fuel →
    ∃ d1 s1, fileLoop fuel d s = some (true, d1, s1) ∧ s1.hostIn = more ∧
      s1.hostOut = s.hostOut ∧
      s1.busOut = s.busOut ++ (bs.flatten ++ u).map BusEv.send ++ [BusEv.sendEOI x] := by
  induction bs with
  | nil =>
    intro fuel d s u x more h hacc hf
    obtain ⟨f, rfl⟩ : ∃ f, fuel = f + 1 := ⟨fuel - 1, by simp at hf; omega⟩
    have hb := fileBody_chunk chE (u ++ [x]) more d s (Or.inr rfl) (by simpa using h) hacc
    rw [range_map_sendE] at hb
    refine ⟨(fileBody d s).2.2.1, (fileBody d s).2.2.2, ?_, hb.2.2.1, hb.2.2.2.1, ?_⟩
    · have h1 : (fileBody d s).1 = false := by rw [hb.1]; decide
      simp only [fileLoop, h1]
      simp [← hb.2.1]
    · rw [hb.2.2.2.2.2]; simp
  | cons t ts ih =>
    intro fuel d s u x more h hacc hf
    obtain ⟨f, rfl⟩ : ∃ f, fuel = f + 1 := ⟨fuel - 1, by simp at hf; omega⟩
    have hb := fileBody_chunk chB t
      ((ts.map (encChunk chB)).flatten ++ (encChunk chE (u ++ [x]) ++ more)) d s (Or.inl rfl)
      (by simpa [List.append_assoc] using h) hacc
    rw [range_map_sendB] at hb
    have hacc2 : ∀ b ∈ (fileBody d s).2.2.2.busAccept, b = true := by
      rw [hb.2.2.2.2.1]
      exact fun b hb => hacc b (List.mem_of_mem_drop hb)
    obtain ⟨d1, s1, h1, h2, h3, h4⟩ := ih f (fileBody d s).2.2.1 (fileBody d s).2.2.2 u x more
      hb.2.2.1 hacc2 (by simp at hf; omega)
    refine ⟨d1, s1, ?_, h2, by rw [h3, hb.2.2.2.1], ?_⟩
    · have h0 : (fileBody d s).1 = true := by rw [hb.1]; decide
      simp only [fileLoop, h0]
      simpa using h1
    · rw [h4, hb.2.2.2.2.2]; simp [List.append_assoc]

/-- C1 (amended). A `sendFile` run that succeeds - a 3-byte `S` size reply,
then chunks tagged `B` and a last chunk tagged `E`, each with its full payload,
the bus accepting every byte - and whose `E` chunk carries at least one byte,
returns having sent as many bytes on the bus as the chunk lengths add up to:
all payload bytes in order, every one with `send` but the last byte of the `E`
chunk, which is sent with `sendEOI`. -/
theorem sendFile_success (bs : List (List Nat)) (e rest : List Nat) (hi lo : Nat) (s : State)
    (fuel : Nat) (hb : ∀ t ∈ bs, t.length < 256) (he : e.length < 256) (hne : e ≠ [])
    (h : s.hostIn = [chS, hi, lo] ++ (bs.map (encChunk chB)).flatten ++ encChunk chE e ++ rest)
    (hacc : ∀ b ∈ s.busAccept, b = true) (hf : bs.length < fuel) :
    ∃ s1, sendFile fuel s = some s1 ∧
      s1.busOut = s.busOut ++ (bs.flatten ++ e.dropLast).map BusEv.send
        ++ [BusEv.sendEOI (e.getLast hne)] ∧
      s1.busOut.length = s.busOut.length + ((bs.map List.length).sum + e.length) := by
  have _ := hb
  have _ := he
  obtain ⟨u, x, rfl⟩ : ∃ u x, e = u ++ [x] :=
    ⟨e.dropLast, e.getLast hne, (List.dropLast_append_getLast hne).symm⟩
  have hr : comReadBytes 3 (comWrite chS s) = (3, { (comWrite chS s) with
      serCmdIOBuf := bufStore s.serCmdIOBuf 0 [chS, hi, lo],
      hostIn := (bs.map (encChunk chB)).flatten ++ (encChunk chE (u ++ [x]) ++ rest) }) := by
    simp [comReadBytes, comWrite, h, List.append_assoc]
  obtain ⟨d1, s1, h1, _, _, h4⟩ := fileLoop_chunks bs fuel 0
    (comWrite 256 (comWrite chN { (comWrite chS s) with
      serCmdIOBuf := bufStore s.serCmdIOBuf 0 [chS, hi, lo],
      hostIn := (bs.map (encChunk chB)).flatten ++ (encChunk chE (u ++ [x]) ++ rest) }))
    u x rest (by simp [comWrite]) (by simpa [comWrite] using hacc) hf
  have hb0 : bufStore s.serCmdIOBuf 0 [chS, hi, lo] 0 = chS := by simp [bufStore]
  have hsf : ∃ m, sendFile fuel s = some (bufText m s1) := by
    simp only [sendFile, hr, hb0, h1]
    simp
    exact ⟨_, rfl⟩
  obtain ⟨m, hm⟩ := hsf
  have hout : (bufText m s1).busOut
      = s.busOut ++ (bs.flatten ++ u).map BusEv.send ++ [BusEv.sendEOI x] := by
    rw [show (bufText m s1).busOut = s1.busOut from rfl, h4]
    simp [comWrite]
  refine ⟨bufText m s1, hm, ?_, ?_⟩
  · rw [hout]; simp
  · rw [hout]
    simp only [List.length_append, List.length_map, List.length_flatten, List.length_singleton]
    omega

theorem sendFile_success_witness :
    ∃ s1, sendFile 2 { State.init with hostIn := [83, 0, 3, 66, 2, 7, 8, 69, 1, 9] } = some s1 ∧
      s1.busOut = [BusEv.send 7, BusEv.send 8, BusEv.sendEOI 9] ∧ s1.busOut.length = 3 :=
  sendFile_success [[7, 8]] [9] [] 0 3
    { State.init with hostIn := [83, 0, 3, 66, 2, 7, 8, 69, 1, 9] } 2
    (by decide) (by decide) (by decide) (by rfl) (by simp [State.init]) (by decide)

/-- C1, as stated, fails: after a `B` chunk of two bytes the host closes the
file with an `E` chunk of length 0; the run succeeds (the buffer holds the text
written on success), the two bytes are sent with `send`, and no byte is sent
with `sendEOI`. -/
theorem sendFile_empty_last_chunk :
    (sendFile 2 { State.init with hostIn := [83, 0, 2, 66, 2, 7, 8, 69, 0] }).map
        (fun s => (s.busOut, (s.busOut.filter BusEv.isEOI).length, bufBytes s.serCmdIOBuf 11))
      = some ([BusEv.send 7, BusEv.send 8], 0, strBytes "Transferred") := by
  decide

/-! ## Saving a file -/

theorem bufStore_cons (buf : Nat → Nat) (n x : Nat) (xs : List Nat) :
    bufStore (bufStore buf n [x]) (n + 1) xs = bufStore buf n (x :: xs) := by
  funext j
  simp only [bufStore]
  by_cases h1 : j < n
  · have h2 : j < n + 1 := by omega
    simp [h1, h2]
  · by_cases h2 : j = n
    · subst h2; simp
    · have h3 : ¬ j < n + 1 := by omega
      obtain ⟨k, rfl⟩ : ∃ k, j = n + 1 + k := ⟨j - n - 1, by omega⟩
      have h4 : n + 1 + k - n = k + 1 := by omega
      simp [h1, h3, h4]

theorem bufBytes_frame (buf : Nat → Nat) (data : List Nat) (len : Nat) :
    bufBytes (bufStore (bufStore buf 2 data) 1 [len]) (data.length + 2)
      = buf 0 :: len :: data := by
  apply List.ext_getElem
  · simp [bufBytes]
  · intro j h1 h2
    simp [bufBytes] at h1
    match j with
    | 0 => simp [bufBytes, bufStore]
    | 1 => simp [bufBytes, bufStore]
    | k + 2 =>
      have hk : k < data.length := by omega
      simp [bufBytes, bufStore, List.getElem?_eq_getElem hk]

/-- The inner loop when the byte that ends the transfer comes before the buffer is full. -/
theorem saveInner_last (eoi err : Nat) (pre : List (Nat × Nat)) : ∀ (fuel n : Nat) (s : State)
    (b st : Nat) (rest : List (Nat × Nat)),
    s.busIn = pre ++ (b, st) :: rest → (∀ x ∈ pre, busDone eoi err x.2 = false) →
    busDone eoi err st = true → n + pre.length + 1 ≤ 0xf0 → pre.length < fuel →
    ∃ s1, saveInner eoi err fuel n s = some (n + pre.length + 1, true, s1) ∧
      s1.busIn = rest ∧ s1.hostOut = s.hostOut ∧
      s1.serCmdIOBuf = bufStore s.serCmdIOBuf n (pre.map Prod.fst ++ [b]) := by
  induction pre with
  | nil =>
    intro fuel n s b st rest h _ hst hn hf
    obtain ⟨f, rfl⟩ : ∃ f, fuel = f + 1 := ⟨fuel - 1, by simp at hf; omega⟩
    simp at h
    simp [saveInner, iecReceive, h, bufSet, hst]
  | cons x pre ih =>
    intro fuel n s b st rest h hpre hst hn hf
    obtain ⟨f, rfl⟩ : ∃ f, fuel = f + 1 := ⟨fuel - 1, by simp at hf; omega⟩
    simp at h hn hf
    have hx : busDone eoi err x.2 = false := hpre x (by simp)
    have hlt : n + 1 < 240 := by omega
    obtain ⟨s1, h1, h2, h3, h4⟩ := ih f (n + 1)
      (bufSet n [x.1] { s with busIn := pre ++ (b, st) :: rest, iecState := x.2 }) b st rest
      rfl (fun y hy => hpre y (by simp [hy])) hst (by simp; omega) (by omega)
    have hd : busDone eoi err (bufSet n [x.1]
        { s with busIn := pre ++ (b, st) :: rest, iecState := x.2 }).iecState = false := hx
    have hstep : saveInner eoi err (f + 1) n s = saveInner eoi err f (n + 1) (bufSet n [x.1]
        { s with busIn := pre ++ (b, st) :: rest, iecState := x.2 }) := by
      simp only [saveInner, iecReceive, h]
      simp only [hd, hlt, and_self, if_true]
    refine ⟨s1, ?_, h2, h3, ?_⟩
    · rw [hstep, h1]
      simp
      omega
    · rw [h4]
      simp [bufSet, bufStore_cons]

/-- The inner loop when the buffer fills up before the transfer ends. -/
theorem saveInner_full (eoi err : Nat) (p1 : List (Nat × Nat)) : ∀ (fuel n : Nat) (s : State)
    (more : List (Nat × Nat)),
    s.busIn = p1 ++ more → (∀ x ∈ p1, busDone eoi err x.2 = false) →
    p1 ≠ [] → n + p1.length = 0xf0 → p1.length ≤ fuel →
    ∃ s1, saveInner eoi err fuel n s = some (0xf0, false, s1) ∧
      s1.busIn = more ∧ s1.hostOut = s.hostOut ∧
      s1.serCmdIOBuf = bufStore s.serCmdIOBuf n (p1.map Prod.fst) := by
  induction p1 with
  | nil => intro fuel n s more _ _ hne; exact absurd rfl hne
  | cons x p1 ih =>
    intro fuel n s more h hpre _ hn hf
    obtain ⟨f, rfl⟩ : ∃ f, fuel = f + 1 := ⟨fuel - 1, by simp at hf; omega⟩
    simp at h hn hf
    have hx : busDone eoi err x.2 = false := hpre x (by simp)
    have hd : busDone eoi err (bufSet n [x.1]
        { s with busIn := p1 ++ more, iecState := x.2 }).iecState = false := hx
    by_cases hlt : n + 1 < 240
    · have hne : p1 ≠ [] := by
        intro h0; subst h0; simp at hn; omega
      obtain ⟨s1, h1, h2, h3, h4⟩ := ih f (n + 1)
        (bufSet n [x.1] { s with busIn := p1 ++ more, iecState := x.2 }) more
        rfl (fun y hy => hpre y (by simp [hy])) hne (by omega) (by omega)
      have hstep : saveInner eoi err (f + 1) n s = saveInner eoi err f (n + 1) (bufSet n [x.1]
          { s with busIn := p1 ++ more, iecState := x.2 }) := by
        simp only [saveInner, iecReceive, h]
        simp only [hd, hlt, and_self, if_true]
      refine ⟨s1, by rw [hstep, h1], h2, h3, ?_⟩
      rw [h4]
      simp [bufSet, bufStore_cons]
    · have hp : p1 = [] := by
        cases p1 with
        | nil => rfl
        | cons y ys => simp at hn; omega
      subst hp
      have hn2 : n + 1 = 240 := by simpa using hn
      refine ⟨bufSet n [x.1] { s with busIn := more, iecState := x.2 }, ?_, rfl, rfl, ?_⟩
      · simp only [saveInner, iecReceive, h]
        simp at hd
        simp [hd, hlt, hn2]
      · simp [bufSet]

/-- What `saveFile` writes to the host for a bus transfer that ends: frames
`W`, payload length plus 2, payload, whose payloads are between 1 and 238 bytes
long and together are the bytes received up to and with the one that ends the
transfer. -/
theorem saveLoop_frames (eoi err inner : Nat) (hin : 238 ≤ inner) (fuel : Nat) :
    ∀ (pre : List (Nat × Nat)) (s : State) (b st : Nat) (rest : List (Nat × Nat)),
    s.serCmdIOBuf 0 = chW →
    s.busIn = pre ++ (b, st) :: rest → (∀ x ∈ pre, busDone eoi err x.2 = false) →
    busDone eoi err st = true → pre.length < fuel →
    ∃ (s1 : State) (payloads : List (List Nat)), saveLoop eoi err inner fuel s = some s1 ∧ s1.busIn = rest ∧
      s1.hostOut = s.hostOut ++ payloads.map saveFrame ∧
      payloads.flatten = pre.map Prod.fst ++ [b] ∧
      ∀ p ∈ payloads, 1 ≤ p.length ∧ p.length ≤ 238 := by
  induction fuel with
  | zero => intro pre s b st rest _ _ _ _ hf; simp at hf
  | succ f ih =>
    intro pre s b st rest hW h hpre hst hf
    by_cases hshort : pre.length + 1 ≤ 238
    · obtain ⟨s1, h1, h2, h3, h4⟩ := saveInner_last eoi err pre inner 2 s b st rest h hpre hst
        (by omega) (by omega)
      refine ⟨comWriteBuf ((2 + pre.length + 1) % 256)
        (bufSet 1 [(2 + pre.length + 1) % 256] s1), [pre.map Prod.fst ++ [b]],
        ?_, ?_, ?_, by simp, ?_⟩
      · simp only [saveLoop, h1]
        simp
      · simpa [comWriteBuf, bufSet] using h2
      · have hl : (2 + pre.length + 1) % 256 = (pre.map Prod.fst ++ [b]).length + 2 := by
          simp; omega
        simp only [comWriteBuf, bufSet, h4, h3, hl, bufBytes_frame, hW]
        simp [saveFrame]
      · intro p hp
        simp at hp
        subst hp
        simp
        omega
    · have hsplit : pre = pre.take 238 ++ pre.drop 238 := (List.take_append_drop 238 pre).symm
      have hlen : (pre.take 238).length = 238 := by simp; omega
      obtain ⟨s1, h1, h2, h3, h4⟩ := saveInner_full eoi err (pre.take 238) inner 2 s
        (pre.drop 238 ++ (b, st) :: rest)
        (by rw [← List.append_assoc, ← hsplit]; exact h)
        (fun x hx => hpre x (List.mem_of_mem_take hx))
        (by intro h0; rw [h0] at hlen; simp at hlen) (by rw [hlen]) (by rw [hlen]; exact hin)
      obtain ⟨s2, ps, g1, g2, g3, g4, g5⟩ := ih (pre.drop 238)
        (comWriteBuf (0xf0 % 256) (bufSet 1 [0xf0 % 256] s1)) b st rest
        (by simp [comWriteBuf, bufSet, h4, bufStore, hW])
        (by simpa [comWriteBuf, bufSet] using h2)
        (fun x hx => hpre x (List.mem_of_mem_drop hx)) hst (by simp; omega)
      refine ⟨s2, (pre.take 238).map Prod.fst :: ps, ?_, g2, ?_, ?_, ?_⟩
      · simp only [saveLoop, h1]
        simpa using g1
      · rw [g3]
        have hl : 0xf0 % 256 = ((pre.take 238).map Prod.fst).length + 2 := by
          rw [List.length_map, hlen]
        simp only [comWriteBuf, bufSet, h4, h3]
        rw [hl, bufBytes_frame, hW]
        simp [saveFrame]
      · rw [List.flatten_cons, g4, ← List.append_assoc, ← List.map_append, ← hsplit]
      · intro p hp
        rcases List.mem_cons.1 hp with hp | hp
        · subst hp; rw [List.length_map, hlen]; omega
        · exact g5 p hp

/-- C2. When the bus delivers bytes of which the one after `pre` is the first
whose receive sets the end-of-transmission or the error bit, `saveFile`
returns; the chunks it wrote to the host, each stripped of its two leading
bytes, make up in order the bytes received, that last one included; and no
byte behind it was taken from the bus. -/
theorem saveFile_payloads (eoi err fuel : Nat) (s : State) (pre : List (Nat × Nat))
    (b st : Nat) (rest : List (Nat × Nat))
    (h : s.busIn = pre ++ (b, st) :: rest) (hpre : ∀ x ∈ pre, busDone eoi err x.2 = false)
    (hst : busDone eoi err st = true) (hf1 : 238 ≤ fuel) (hf2 : pre.length < fuel) :
    ∃ (s1 : State) (chunks : List (List Nat)), saveFile eoi err fuel s = some s1 ∧
      s1.hostOut = s.hostOut ++ chunks ∧
      (chunks.map (List.drop 2)).flatten = pre.map Prod.fst ++ [b] ∧
      s1.busIn = rest := by
  obtain ⟨s1, ps, h1, h2, h3, h4, _⟩ := saveLoop_frames eoi err fuel hf1 fuel pre
    (bufSet 0 [chW] s) b st rest (by simp [bufSet, bufStore]) h hpre hst hf2
  refine ⟨s1, ps.map saveFrame, h1, h3, ?_, h2⟩
  rw [← h4]
  congr 1
  simp [List.map_map, Function.comp_def, saveFrame]

theorem saveFile_payloads_witness :
    ∃ (s1 : State) (chunks : List (List Nat)),
      saveFile 1 4 238 { State.init with busIn := [(7, 0), (8, 0), (9, 1), (10, 0)] } = some s1 ∧
      s1.hostOut = [] ++ chunks ∧
      (chunks.map (List.drop 2)).flatten = [7, 8] ++ [9] ∧ s1.busIn = [(10, 0)] :=
  saveFile_payloads 1 4 238 { State.init with busIn := [(7, 0), (8, 0), (9, 1), (10, 0)] }
    [(7, 0), (8, 0)] 9 1 [(10, 0)] (by rfl) (by decide) (by decide) (by decide) (by decide)

/-- C9 (amended). Every chunk `saveFile` writes to the host starts with `W`,
and its second byte is the length of the whole chunk: the number of payload
bytes, which are the bytes received from the bus for that chunk, plus 2. -/
theorem saveFile_frame_shape (eoi err fuel : Nat) (s : State) (pre : List (Nat × Nat))
    (b st : Nat) (rest : List (Nat × Nat))
    (h : s.busIn = pre ++ (b, st) :: rest) (hpre : ∀ x ∈ pre, busDone eoi err x.2 = false)
    (hst : busDone eoi err st = true) (hf1 : 238 ≤ fuel) (hf2 : pre.length < fuel) :
    ∃ (s1 : State) (payloads : List (List Nat)), saveFile eoi err fuel s = some s1 ∧
      s1.hostOut = s.hostOut ++ payloads.map saveFrame ∧
      payloads.flatten = pre.map Prod.fst ++ [b] ∧
      ∀ c ∈ payloads.map saveFrame,
        c.getD 0 0 = chW ∧ c.getD 1 0 = (c.drop 2).length + 2 ∧ c.getD 1 0 = c.length := by
  obtain ⟨s1, ps, h1, _, h3, h4, _⟩ := saveLoop_frames eoi err fuel hf1 fuel pre
    (bufSet 0 [chW] s) b st rest (by simp [bufSet, bufStore]) h hpre hst hf2
  refine ⟨s1, ps, h1, h3, h4, ?_⟩
  intro c hc
  obtain ⟨p, _, rfl⟩ := List.mem_map.1 hc
  simp [saveFrame]

theorem saveFile_frame_shape_witness :
    ∃ (s1 : State) (payloads : List (List Nat)),
      saveFile 1 4 238 { State.init with busIn := [(7, 0), (8, 4)] } = some s1 ∧
      s1.hostOut = [] ++ payloads.map saveFrame ∧
      payloads.flatten = [7] ++ [8] ∧
      ∀ c ∈ payloads.map saveFrame,
        c.getD 0 0 = chW ∧ c.getD 1 0 = (c.drop 2).length + 2 ∧ c.getD 1 0 = c.length :=
  saveFile_frame_shape 1 4 238 { State.init with busIn := [(7, 0), (8, 4)] }
    [(7, 0)] 8 4 [] (by rfl) (by decide) (by decide) (by decide) (by decide)

/-- C9, as stated, fails: one byte received with the end-of-transmission bit
gives the chunk `W`, 3, 7, whose second byte is 3 while the payload is 1 byte. -/
theorem saveFile_length_byte_counts_frame :
    (saveFile 1 4 238 { State.init with busIn := [(7, 1)] }).map
        (fun s => (s.hostOut, s.hostOut.map (fun c => (c.getD 1 0, (c.drop 2).length))))
      = some ([[87, 3, 7]], [(3, 1)]) := by
  decide

/-- C5: the code never gets there. The loop that should wait for the `>` of the
host sets `lengthOrResult` to `'>'` and goes on while it differs from 1, so it
never ends: for no amount of fuel, no channel and no state does
`handleATNCmdCodeDataTalk` return. -/
theorem handleATNCmdCodeDataTalk_never_returns (fuel chan : Nat) (s : State) :
    handleATNCmdCodeDataTalk fuel chan s = none := by
  have hs : ∀ (f : Nat) (z : State), talkSync f z = none := by
    intro f
    induction f with
    | zero => intro z; rfl
    | succ f ih => intro z; simp [talkSync, ih]
  simp [handleATNCmdCodeDataTalk, hs]

/-- C6 (amended). When the host's reply to a DATA+LISTEN event is `>` and a
nonzero verdict byte `v`, the handler returns without running `saveFile` - no
byte is taken from the bus and nothing is written to the host - and the queued
error is `v` if at least one more byte follows `v`, and 97 if none does. -/
theorem handleATNCmdCodeDataListen_error (eoi err fuel v : Nat) (rest : List Nat) (s : State)
    (hv : v ≠ 0) (h : s.hostIn = chGT :: v :: rest) (hf : 0 < fuel) :
    ∃ s1, handleATNCmdCodeDataListen eoi err fuel s = some s1 ∧
      s1.m_queuedError = (if rest = [] then 97 else v) ∧
      s1.busIn = s.busIn ∧ s1.hostOut = s.hostOut ∧ s1.busOut = s.busOut := by
  obtain ⟨f, rfl⟩ : ∃ f, fuel = f + 1 := ⟨fuel - 1, by omega⟩
  have hsync : listenSync (f + 1) (bufSet 0 [0] s) = some (1, { (bufSet 0 [0] s) with
      serCmdIOBuf := bufStore (bufSet 0 [0] s).serCmdIOBuf 0 [chGT], hostIn := v :: rest }) := by
    simp [listenSync, comReadBytes, bufSet, h, bufStore]
  cases rest with
  | nil =>
    have hres : handleATNCmdCodeDataListen eoi err (f + 1) s = some { s with
        serCmdIOBuf := bufStore (bufStore (bufStore s.serCmdIOBuf 0 [0]) 0 [chGT]) 0 [v],
        hostIn := [], m_queuedError := 97 } := by
      simp only [handleATNCmdCodeDataListen, hsync]
      simp [comReadBytes, bufStore, bufSet]
    exact ⟨_, hres, by simp⟩
  | cons c rest =>
    have hres : handleATNCmdCodeDataListen eoi err (f + 1) s = some { s with
        serCmdIOBuf := bufStore (bufStore (bufStore s.serCmdIOBuf 0 [0]) 0 [chGT]) 0 [v, c],
        hostIn := rest, m_queuedError := v } := by
      simp only [handleATNCmdCodeDataListen, hsync]
      simp [comReadBytes, bufStore, bufSet, Ne.symm hv]
    exact ⟨_, hres, by simp⟩

theorem handleATNCmdCodeDataListen_error_witness :
    ∃ s1, handleATNCmdCodeDataListen 1 4 1
        { State.init with hostIn := [62, 5, 13], busIn := [(7, 1)] } = some s1 ∧
      s1.m_queuedError = (if [13] = [] then 97 else 5) ∧
      s1.busIn = [(7, 1)] ∧ s1.hostOut = [] ∧ s1.busOut = [] :=
  handleATNCmdCodeDataListen_error 1 4 1 5 [13]
    { State.init with hostIn := [62, 5, 13], busIn := [(7, 1)] } (by decide) (by rfl) (by decide)

/-- C6, as stated, fails: the host replies `>` and the verdict byte 5 and
nothing more; the queued error becomes 97, not 5. -/
theorem handleATNCmdCodeDataListen_two_byte_reply :
    (handleATNCmdCodeDataListen 1 4 1
        { State.init with hostIn := [62, 5], busIn := [(7, 1)] }).map
        (fun s => (s.m_queuedError, s.hostOut, s.busIn))
      = some (97, [], [(7, 1)]) := by
  decide

/-- C7: the code at the failing input. The buffer starts with `C`, 9 from an
earlier exchange, the device number is 8 and the host sends nothing in reply to
the close; the device number becomes 9. -/
theorem handleATNCmdClose_stale_buffer :
    (({ State.init with serCmdIOBuf := bufStore (fun _ => 0) 0 [67, 9] } : State).deviceNumber,
     ({ State.init with serCmdIOBuf := bufStore (fun _ => 0) 0 [67, 9] } : State).hostIn,
     (handleATNCmdClose
        { State.init with serCmdIOBuf := bufStore (fun _ => 0) 0 [67, 9] }).deviceNumber)
      = (8, [], 9) := by
  decide

/-- C8: the code at the failing input. The host answers the `E` query with
`:`, `O`, `K`, CR; `sendStatus` sends `O` with `sendEOI` and never sends `K`. -/
theorem sendStatus_drops_last_byte :
    (sendStatus 1 { State.init with hostIn := [58, 79, 75, 13] }).map (fun s => s.busOut)
      = some [BusEv.sendEOI 79] := by
  decide

/-! ## Opening -/

theorem bufBytes_open (buf : Nat → Nat) (data : List Nat) (a c : Nat) :
    bufBytes (bufStore (bufStore (bufStore (bufStore buf 0 [chi]) 2 [c]) 3 data) 1 [a])
        (3 + data.length) = chi :: a :: c :: data := by
  apply List.ext_getElem
  · simp [bufBytes]; omega
  · intro j h1 h2
    simp [bufBytes] at h1
    match j with
    | 0 => simp [bufBytes, bufStore]
    | 1 => simp [bufBytes, bufStore]
    | 2 => simp [bufBytes, bufStore]
    | k + 3 =>
      have hk : k < data.length := by omega
      simp [bufBytes, bufStore, List.getElem?_eq_getElem hk]

/-- C10. For a command with `strLen <= 252`, `handleATNCmdCodeOpen` makes one
write to the host, of `3 + strLen` bytes: `i`, the byte `3 + strLen`, the
channel `cmd.code & 0x0F`, and the `strLen` bytes of the command string in
order. It reads nothing from the host and sends nothing on the bus. -/
theorem handleATNCmdCodeOpen_frame (cmd : ATNCmd) (s : State) (h : cmd.strLen ≤ 252) :
    (handleATNCmdCodeOpen cmd s).hostOut = s.hostOut ++
        [chi :: (3 + cmd.strLen) :: (cmd.code &&& 0x0F) :: (List.range cmd.strLen).map cmd.str] ∧
    (chi :: (3 + cmd.strLen) :: (cmd.code &&& 0x0F) :: (List.range cmd.strLen).map cmd.str).length
      = 3 + cmd.strLen ∧
    (handleATNCmdCodeOpen cmd s).hostIn = s.hostIn ∧
    (handleATNCmdCodeOpen cmd s).busOut = s.busOut ∧
    (handleATNCmdCodeOpen cmd s).busIn = s.busIn := by
  have hl : (3 + cmd.strLen) % 256 = 3 + ((List.range cmd.strLen).map cmd.str).length := by
    simp; omega
  refine ⟨?_, by simp; omega, rfl, rfl, rfl⟩
  simp only [handleATNCmdCodeOpen, comWriteBuf, bufSet]
  rw [hl, bufBytes_open]
  simp

theorem handleATNCmdCodeOpen_frame_witness :
    (handleATNCmdCodeOpen ⟨0xF2, fun i => [65, 66, 67].getD i 0, 3⟩ State.init).hostOut
      = [] ++ [[105, 6, 2, 65, 66, 67]] ∧
    [105, 6, 2, 65, 66, 67].length = 3 + 3 ∧
    (handleATNCmdCodeOpen ⟨0xF2, fun i => [65, 66, 67].getD i 0, 3⟩ State.init).hostIn = [] ∧
    (handleATNCmdCodeOpen ⟨0xF2, fun i => [65, 66, 67].getD i 0, 3⟩ State.init).busOut = [] ∧
    (handleATNCmdCodeOpen ⟨0xF2, fun i => [65, 66, 67].getD i 0, 3⟩ State.init).busIn = [] :=
  handleATNCmdCodeOpen_frame ⟨0xF2, fun i => [65, 66, 67].getD i 0, 3⟩ State.init (by decide)


/-! ## The dispatcher -/

/-- Outside the two pipelines that wait for the host - a DATA event
classified TALK or LISTEN - `handler` returns, for any fuel, and what it returns
is the classification `checkATN` gave. -/
theorem handler_returns_elsewhere (K : IECConsts) (fuel retATN : Nat) (cmd : ATNCmd)
    (s : State) (hb : retATN < 256)
    (hnd : ¬ (cmd.code &&& 0xF0 = K.ATN_CODE_DATA ∧
      (retATN = K.ATN_CMD_TALK ∨ retATN = K.ATN_CMD_LISTEN))) :
    ∃ s1, handler K fuel retATN cmd s = some (retATN, s1) := by
  have hm : retATN % 256 = retATN := Nat.mod_eq_of_lt hb
  by_cases he : retATN = K.ATN_ERROR
  · subst he
    exact ⟨bufText (strBytes "ATNCMD: IEC_ERROR!") s, by simp [handler, hm]⟩
  · by_cases hi : retATN = K.ATN_IDLE
    · subst hi
      exact ⟨s, by simp [handler, he, hm]⟩
    · have hi2 : retATN ≠ K.ATN_IDLE := hi
      unfold handler
      simp only [hm]
      rw [if_neg he, if_pos hi2]
      by_cases ho : cmd.code &&& 0xF0 = K.ATN_CODE_OPEN
      · rw [if_pos ho]; exact ⟨_, rfl⟩
      · rw [if_neg ho]
        by_cases hd : cmd.code &&& 0xF0 = K.ATN_CODE_DATA
        · have ht : retATN ≠ K.ATN_CMD_TALK := fun h => hnd ⟨hd, Or.inl h⟩
          have hl : retATN ≠ K.ATN_CMD_LISTEN := fun h => hnd ⟨hd, Or.inr h⟩
          rw [if_pos hd, if_neg ht, if_neg hl]
          by_cases hc : retATN = K.ATN_CMD
          · rw [if_pos hc]; exact ⟨_, rfl⟩
          · rw [if_neg hc]; exact ⟨_, rfl⟩
        · rw [if_neg hd]
          by_cases hcl : cmd.code &&& 0xF0 = K.ATN_CODE_CLOSE
          · rw [if_pos hcl]; exact ⟨_, rfl⟩
          · rw [if_neg hcl]
            repeat' split
            all_goals exact ⟨_, rfl⟩

/-- When the classification is IDLE or ERROR, `handler` returns, with that
classification, and has written nothing to the host link, read nothing from it,
sent nothing on the bus and received nothing from it, and left OpenState, the
queued error and the device number as they were. -/
theorem handler_idle_error (K : IECConsts) (fuel retATN : Nat) (cmd : ATNCmd) (s : State)
    (hb : retATN < 256) (hie : retATN = K.ATN_IDLE ∨ retATN = K.ATN_ERROR) :
    ∃ s1, handler K fuel retATN cmd s = some (retATN, s1) ∧
      s1.hostOut = s.hostOut ∧ s1.hostIn = s.hostIn ∧ s1.busOut = s.busOut ∧
      s1.busIn = s.busIn ∧ s1.m_openState = s.m_openState ∧
      s1.m_queuedError = s.m_queuedError ∧ s1.deviceNumber = s.deviceNumber := by
  have hm : retATN % 256 = retATN := Nat.mod_eq_of_lt hb
  by_cases he : retATN = K.ATN_ERROR
  · subst he
    exact ⟨bufText (strBytes "ATNCMD: IEC_ERROR!") s, by simp [handler, hm],
      rfl, rfl, rfl, rfl, rfl, rfl, rfl⟩
  · have hi : retATN = K.ATN_IDLE := hie.resolve_right he
    subst hi
    exact ⟨s, by simp [handler, he, hm], rfl, rfl, rfl, rfl, rfl, rfl, rfl⟩

/-- C12: the code at the failing input. On a DATA event for channel 2 that
`checkATN` classified TALK, `handler` returns nothing, whatever the fuel and
the state: the classification never reaches the caller. -/
theorem handler_talk_returns_no_classification (fuel : Nat) (s : State) :
    handler IECConsts.sample fuel IECConsts.sample.ATN_CMD_TALK (ATNCmd.ofCode 0x62) s
      = none := by
  have hs : ∀ (f : Nat) (z : State), talkSync f z = none := by
    intro f
    induction f with
    | zero => intro z; rfl
    | succ f ih => intro z; simp [talkSync, ih]
  have ht : ∀ (c : Nat) (z : State), handleATNCmdCodeDataTalk fuel c z = none := by
    intro c z
    simp [handleATNCmdCodeDataTalk, hs]
  simp [handler, IECConsts.sample, ATNCmd.ofCode, ht, (by decide : (98 : Nat) &&& 240 = 96)]

/-- C14: the code at the failing input. For a DATA event classified TALK,
whatever the channel, the host bytes and the bus, `handler` does not return:
the talk pipeline it calls never ends. -/
theorem handler_data_talk_never_returns (K : IECConsts) (fuel : Nat) (cmd : ATNCmd) (s : State)
    (hd : cmd.code &&& 0xF0 = K.ATN_CODE_DATA) (ho : K.ATN_CODE_DATA ≠ K.ATN_CODE_OPEN)
    (he : K.ATN_CMD_TALK ≠ K.ATN_ERROR) (hi : K.ATN_CMD_TALK ≠ K.ATN_IDLE) :
    handler K fuel K.ATN_CMD_TALK cmd s = none := by
  have hs : ∀ (f : Nat) (z : State), talkSync f z = none := by
    intro f
    induction f with
    | zero => intro z; rfl
    | succ f ih => intro z; simp [talkSync, ih]
  have ht : ∀ (c : Nat) (z : State), handleATNCmdCodeDataTalk fuel c z = none := by
    intro c z
    simp [handleATNCmdCodeDataTalk, hs]
  simp [handler, he, hi, hd, ho, ht]

theorem handler_data_talk_never_returns_witness :
    handler IECConsts.sample 7 IECConsts.sample.ATN_CMD_TALK (ATNCmd.ofCode 0x62)
      { State.init with hostIn := [62, 2] } = none :=
  handler_data_talk_never_returns IECConsts.sample 7 (ATNCmd.ofCode 0x62)
    { State.init with hostIn := [62, 2] } (by decide) (by decide) (by decide) (by decide)

/-! ## The listing of two lines -/

/-- C13 (amended). For a listing of two lines of lengths 5 and 7, the link
pointer sent with the first line is 0x0101 + 5 + 3 = 0x0109 (bytes 0x09, 0x01),
the pointer sent with the second line is that plus 7 + 3, 0x0113 (bytes 0x13,
0x01), and the two final zero bytes, the last one with `sendEOI`, close the
program. -/
theorem sendListing_two_lines (t1 t2 rest : List Nat) (s : State) (fuel : Nat)
    (h1 : t1.length = 5) (h2 : t2.length = 7)
    (h : s.hostIn = encLine t1 ++ encLine t2 ++ chl :: rest) (hf : 2 < fuel) :
    ∃ s1, sendListing fuel s = some s1 ∧
      s1.busOut = s.busOut ++ [BusEv.send 0x01, BusEv.send 0x01]
        ++ [BusEv.send 0x09, BusEv.send 0x01] ++ t1.map BusEv.send ++ [BusEv.send 0]
        ++ [BusEv.send 0x13, BusEv.send 0x01] ++ t2.map BusEv.send ++ [BusEv.send 0]
        ++ [BusEv.send 0, BusEv.sendEOI 0] := by
  obtain ⟨s1, g1, g2⟩ := listingLoop_lines [t1, t2] fuel 0x0101
    (iecSend ((0x0101 >>> 8) &&& 0xff) (iecSend (0x0101 &&& 0xff) s).2).2 rest
    (by simpa [iecSend] using h) (by simpa using hf)
  refine ⟨(iecSendEOI 0 (iecSend 0 s1).2).2, ?_, ?_⟩
  · simp only [sendListing, g1]
  · simp [iecSend, iecSendEOI, g2, listingOut, h1, h2, (by decide : (257 : Nat) &&& 255 = 1)]

theorem sendListing_two_lines_witness :
    ∃ s1, sendListing 3 { State.init with
        hostIn := [76, 5, 1, 2, 3, 4, 5, 76, 7, 1, 2, 3, 4, 5, 6, 7, 108, 0] } = some s1 ∧
      s1.busOut = [] ++ [BusEv.send 0x01, BusEv.send 0x01]
        ++ [BusEv.send 0x09, BusEv.send 0x01] ++ [1, 2, 3, 4, 5].map BusEv.send ++ [BusEv.send 0]
        ++ [BusEv.send 0x13, BusEv.send 0x01] ++ [1, 2, 3, 4, 5, 6, 7].map BusEv.send
        ++ [BusEv.send 0] ++ [BusEv.send 0, BusEv.sendEOI 0] :=
  sendListing_two_lines [1, 2, 3, 4, 5] [1, 2, 3, 4, 5, 6, 7] [0]
    { State.init with hostIn := [76, 5, 1, 2, 3, 4, 5, 76, 7, 1, 2, 3, 4, 5, 6, 7, 108, 0] } 3
    (by decide) (by decide) (by rfl) (by decide)

/-- C13, as stated, fails: for two lines of lengths 5 and 7 the pointer bytes
sent with the first line are 0x09, 0x01, that is 0x0109 and not 0x010D. -/
theorem sendListing_first_pointer :
    (sendListing 3 { State.init with
        hostIn := [76, 5, 1, 2, 3, 4, 5, 76, 7, 1, 2, 3, 4, 5, 6, 7, 108, 0] }).map
        (fun s => (s.busOut.drop 2).take 2)
      = some [BusEv.send 0x09, BusEv.send 0x01] ∧ (0x0101 + 5 + 3 : Nat) ≠ 0x010D := by
  decide

/-! ## Loops that wait for the host -/

theorem statusSync_silent (fuel : Nat) : ∀ (s : State), s.hostIn = [] →
    statusSync fuel s = none := by
  induction fuel with
  | zero => intro s _; rfl
  | succ f ih =>
    intro s h
    have h1 : (comReadBytes 1 s).1 = 0 := by simp [comReadBytes, h]
    have h2 : (comReadBytes 1 s).2.hostIn = [] := by simp [comReadBytes, h]
    simp [statusSync, h1, ih _ h2]

theorem listenSync_silent (fuel : Nat) : ∀ (s : State), s.hostIn = [] →
    listenSync fuel s = none := by
  induction fuel with
  | zero => intro s _; rfl
  | succ f ih =>
    intro s h
    have h1 : (comReadBytes 1 s).1 = 0 := by simp [comReadBytes, h]
    have h2 : (comReadBytes 1 s).2.hostIn = [] := by simp [comReadBytes, h]
    simp [listenSync, h1, ih _ h2]

/-- C15: the code at the failing input. When the host sends nothing, every
one-byte read of the two loops that wait for `:` and for `>` gives 0 bytes and
the loops go round again: neither `sendStatus` nor `handleATNCmdCodeDataListen`
returns, for any amount of fuel. -/
theorem resync_loops_never_return (eoi err fuel : Nat) (s : State) :
    sendStatus fuel { s with hostIn := [] } = none ∧
    handleATNCmdCodeDataListen eoi err fuel { s with hostIn := [] } = none := by
  constructor
  · have h := statusSync_silent fuel
      (comWrite (comWrite chE { s with hostIn := [] }).m_queuedError
        (comWrite chE { s with hostIn := [] })) rfl
    simp only [sendStatus, h]
  · have h := listenSync_silent fuel (bufSet 0 [0] { s with hostIn := [] }) rfl
    simp only [handleATNCmdCodeDataListen, h]

/-- The listing loop with `L`, 0 at the start of the buffer and a host that
sends nothing more. -/
theorem listingLoop_stale (fuel : Nat) : ∀ (p : Nat) (s : State), s.hostIn = [] →
    s.serCmdIOBuf 0 = chL → s.serCmdIOBuf 1 = 0 → listingLoop fuel p s = none := by
  induction fuel with
  | zero => intro p s _ _ _; rfl
  | succ f ih =>
    intro p s h h0 h1
    have hb : (listingBody p s).1 = chL ∧ (listingBody p s).2.2.hostIn = [] ∧
        (listingBody p s).2.2.serCmdIOBuf 0 = chL ∧ (listingBody p s).2.2.serCmdIOBuf 1 = 0 := by
      simp [listingBody, comWrite, comReadBytes, h, bufStore, h0, h1, sendLine, sendText,
        iecSend]
    simp only [listingLoop, hb.1]
    simpa using ih _ _ hb.2.1 hb.2.2.1 hb.2.2.2

/-- C16: the code at the failing input. With `L`, 0 left at the start of the
buffer and a host that sends nothing, `sendListing` does not return for any
amount of fuel: it keeps sending empty lines. The same happens from an empty
buffer when the host sends the one line `L`, 2, `L`, 0 and then nothing. -/
theorem sendListing_never_returns (fuel : Nat) (s : State) :
    sendListing fuel { s with serCmdIOBuf := bufStore s.serCmdIOBuf 0 [chL, 0], hostIn := [] }
      = none ∧
    sendListing (fuel + 1) { State.init with hostIn := [76, 2, 76, 0] } = none := by
  constructor
  · have h := listingLoop_stale fuel 0x0101
      (iecSend ((0x0101 >>> 8) &&& 0xff) (iecSend (0x0101 &&& 0xff)
        { s with serCmdIOBuf := bufStore s.serCmdIOBuf 0 [chL, 0], hostIn := [] }).2).2
      rfl (by simp [iecSend, bufStore]) (by simp [iecSend, bufStore])
    simp only [sendListing, h]
  · have hb := listingBody_line [76, 0] [] 0x0101
      (iecSend ((0x0101 >>> 8) &&& 0xff) (iecSend (0x0101 &&& 0xff)
        { State.init with hostIn := [76, 2, 76, 0] }).2).2 rfl
    have h := listingLoop_stale fuel
      (listingBody 0x0101 (iecSend ((0x0101 >>> 8) &&& 0xff) (iecSend (0x0101 &&& 0xff)
        { State.init with hostIn := [76, 2, 76, 0] }).2).2).2.1
      (listingBody 0x0101 (iecSend ((0x0101 >>> 8) &&& 0xff) (iecSend (0x0101 &&& 0xff)
        { State.init with hostIn := [76, 2, 76, 0] }).2).2).2.2
      hb.2.2.1
      (by simp [listingBody, comWrite, comReadBytes, iecSend, State.init, bufStore, sendLine,
            sendText])
      (by simp [listingBody, comWrite, comReadBytes, iecSend, State.init, bufStore, sendLine,
            sendText])
    simp only [sendListing, listingLoop, hb.1, ↓reduceIte, h]

theorem listenSync_skip (junk : List Nat) : ∀ (fuel : Nat) (s : State) (rest : List Nat),
    s.hostIn = junk ++ chGT :: rest → (∀ c ∈ junk, c ≠ chGT) → junk.length < fuel →
    ∃ s1, listenSync fuel s = some (1, s1) ∧ s1.hostIn = rest ∧ s1.serCmdIOBuf 0 = chGT ∧
      s1.hostOut = s.hostOut ∧ s1.busIn = s.busIn ∧ s1.busOut = s.busOut := by
  induction junk with
  | nil =>
    intro fuel s rest h _ hf
    obtain ⟨f, rfl⟩ : ∃ f, fuel = f + 1 := ⟨fuel - 1, by simp at hf; omega⟩
    simp at h
    exact ⟨(comReadBytes 1 s).2, by simp [listenSync, comReadBytes, h, bufStore],
      by simp [comReadBytes, h], by simp [comReadBytes, h, bufStore], rfl, rfl, rfl⟩
  | cons c junk ih =>
    intro fuel s rest h hj hf
    obtain ⟨f, rfl⟩ : ∃ f, fuel = f + 1 := ⟨fuel - 1, by simp at hf; omega⟩
    simp at h hf
    have hc : c ≠ chGT := hj c (by simp)
    obtain ⟨s1, g1, g2, g3, g4, g5, g6⟩ := ih f (comReadBytes 1 s).2 rest
      (by simp [comReadBytes, h]) (fun d hd => hj d (by simp [hd])) hf
    refine ⟨s1, ?_, g2, g3, g4, g5, g6⟩
    have h0 : (comReadBytes 1 s).2.serCmdIOBuf 0 = c := by simp [comReadBytes, h, bufStore]
    simp only [listenSync, h0]
    simp [hc, g1]

/-- C18. In the Listen pipeline, when after the `>` of the host (and whatever
bytes came before it) the read of the result gives fewer than the two bytes
asked for, one or none, the handler returns with the queued error set to 97 and
without running `saveFile`: nothing is taken from the bus and nothing is written
to the host. -/
theorem handleATNCmdCodeDataListen_short_result (eoi err fuel : Nat) (junk rest : List Nat)
    (s : State) (h : s.hostIn = junk ++ chGT :: rest) (hj : ∀ c ∈ junk, c ≠ chGT)
    (hr : rest.length < 2) (hf : junk.length < fuel) :
    ∃ s1, handleATNCmdCodeDataListen eoi err fuel s = some s1 ∧
      s1.m_queuedError = 97 ∧ s1.busIn = s.busIn ∧ s1.hostOut = s.hostOut ∧
      s1.busOut = s.busOut := by
  obtain ⟨s1, g1, g2, g3, g4, g5, g6⟩ := listenSync_skip junk fuel (bufSet 0 [0] s) rest
    h hj hf
  have hq : (comReadBytes 2 s1).1 = rest.length := by
    simp [comReadBytes, g2]; omega
  have hne : ¬ ((comReadBytes 2 s1).1 ≠ 0 ∧ 2 = (comReadBytes 2 s1).1) := by
    rw [hq]; omega
  refine ⟨{ (comReadBytes 2 s1).2 with m_queuedError := 97 }, ?_, rfl, ?_, ?_, ?_⟩
  · simp only [handleATNCmdCodeDataListen, g1, g3]
    simp [hne]
  · simpa [comReadBytes] using g5
  · simpa [comReadBytes] using g4
  · simpa [comReadBytes] using g6

theorem handleATNCmdCodeDataListen_short_result_witness :
    ∃ s1, handleATNCmdCodeDataListen 1 4 3
        { State.init with hostIn := [10, 13, 62, 0], busIn := [(7, 1)] } = some s1 ∧
      s1.m_queuedError = 97 ∧ s1.busIn = [(7, 1)] ∧ s1.hostOut = [] ∧ s1.busOut = [] :=
  handleATNCmdCodeDataListen_short_result 1 4 3 [10, 13] [0]
    { State.init with hostIn := [10, 13, 62, 0], busIn := [(7, 1)] }
    (by rfl) (by decide) (by decide) (by decide)

/-! ## Sending a file: every run -/

theorem busBytes_append (a b : List BusEv) : busBytes (a ++ b) = busBytes a ++ busBytes b := by
  simp [busBytes, List.filterMap_append]

/-- The send loop of `sendFile` for any results of the bus: it leaves the host
link and the buffer alone and sends the first `m` bytes of the chunk, all of
them if it succeeds. -/
theorem sendPayload_gen (resp len : Nat) (k : Nat) : ∀ (i d : Nat) (s : State),
    (sendPayload resp len k i d s).2.2.hostIn = s.hostIn ∧
    (sendPayload resp len k i d s).2.2.hostOut = s.hostOut ∧
    (sendPayload resp len k i d s).2.2.busIn = s.busIn ∧
    ∃ (sent : List BusEv) (m : Nat), m ≤ k ∧
      (sendPayload resp len k i d s).2.2.busOut = s.busOut ++ sent ∧
      busBytes sent = (List.range m).map (fun j => s.serCmdIOBuf (i + j)) ∧
      ((sendPayload resp len k i d s).1 = true → m = k) := by
  induction k with
  | zero =>
    intro i d s
    exact ⟨rfl, rfl, rfl, [], 0, le_refl _, by simp [sendPayload], rfl, fun _ => rfl⟩
  | succ k ih =>
    intro i d s
    by_cases hc : resp = chE ∧ i = len - 1
    · cases ha : (iecSendEOI (s.serCmdIOBuf i) s).1
      · have hstep : sendPayload resp len (k + 1) i d s
            = (false, (d + 1) % 65536, (iecSendEOI (s.serCmdIOBuf i) s).2) := by
          rw [sendPayload]
          simp only [if_pos hc, ha, Bool.false_eq_true, ↓reduceIte]
        rw [hstep]
        exact ⟨rfl, rfl, rfl, [BusEv.sendEOI (s.serCmdIOBuf i)], 1, by omega, rfl,
          by simp [busBytes, BusEv.byte?, List.range_succ], by simp⟩
      · obtain ⟨g1, g2, g3, sent, m, hm, g4, g5, g6⟩ := ih (i + 1) ((d + 1) % 65536)
          (iecSendEOI (s.serCmdIOBuf i) s).2
        have hstep : sendPayload resp len (k + 1) i d s = sendPayload resp len k (i + 1)
            ((d + 1) % 65536) (iecSendEOI (s.serCmdIOBuf i) s).2 := by
          rw [sendPayload]
          simp only [if_pos hc, ha, ↓reduceIte]
        rw [hstep]
        refine ⟨g1, g2, g3, BusEv.sendEOI (s.serCmdIOBuf i) :: sent, m + 1, by omega, ?_, ?_, ?_⟩
        · rw [g4]; simp [iecSendEOI]
        · simp only [busBytes, List.filterMap_cons, BusEv.byte?] at g5 ⊢
          rw [g5]
          simp [iecSendEOI, List.range_succ_eq_map, List.map_map, Function.comp_def,
            Nat.add_assoc, Nat.add_comm 1]
        · intro h; rw [g6 h]
    · cases ha : (iecSend (s.serCmdIOBuf i) s).1
      · have hstep : sendPayload resp len (k + 1) i d s
            = (false, (d + 1) % 65536, (iecSend (s.serCmdIOBuf i) s).2) := by
          rw [sendPayload]
          simp only [if_neg hc, ha, Bool.false_eq_true, ↓reduceIte]
        rw [hstep]
        exact ⟨rfl, rfl, rfl, [BusEv.send (s.serCmdIOBuf i)], 1, by omega, rfl,
          by simp [busBytes, BusEv.byte?, List.range_succ], by simp⟩
      · obtain ⟨g1, g2, g3, sent, m, hm, g4, g5, g6⟩ := ih (i + 1) ((d + 1) % 65536)
          (iecSend (s.serCmdIOBuf i) s).2
        have hstep : sendPayload resp len (k + 1) i d s = sendPayload resp len k (i + 1)
            ((d + 1) % 65536) (iecSend (s.serCmdIOBuf i) s).2 := by
          rw [sendPayload]
          simp only [if_neg hc, ha, ↓reduceIte]
        rw [hstep]
        refine ⟨g1, g2, g3, BusEv.send (s.serCmdIOBuf i) :: sent, m + 1, by omega, ?_, ?_, ?_⟩
        · rw [g4]; simp [iecSend]
        · simp only [busBytes, List.filterMap_cons, BusEv.byte?] at g5 ⊢
          rw [g5]
          simp [iecSend, List.range_succ_eq_map, List.map_map, Function.comp_def,
            Nat.add_assoc, Nat.add_comm 1]
        · intro h; rw [g6 h]

theorem map_range_take (buf : Nat → Nat) (t : List Nat) (m : Nat) (hm : m ≤ t.length) :
    (List.range m).map (fun j => bufStore buf 0 t (0 + j)) = t.take m := by
  apply List.ext_getElem
  · simp [hm]
  · intro j h1 h2
    simp at h1
    have hj : j < t.length := by omega
    simp [bufStore, List.getElem?_eq_getElem hj, List.getElem_take]

theorem fileBody_short (d : Nat) (s : State) (h : s.hostIn.length < 2) :
    (fileBody d s).1 = false ∧ (fileBody d s).2.1 = false ∧
    (fileBody d s).2.2.2.busOut = s.busOut ∧ (fileBody d s).2.2.2.hostOut = s.hostOut ∧
    (fileBody d s).2.2.2.busIn = s.busIn := by
  have hc : 2 ≠ (comReadBytes 2 s).1 := by
    simp [comReadBytes]; omega
  simp only [fileBody, hc, ne_eq, not_false_eq_true, if_true]
  exact ⟨trivial, trivial, rfl, rfl, rfl⟩

theorem fileBody_badtag (d : Nat) (s : State) (tag len : Nat) (rest : List Nat)
    (h : s.hostIn = tag :: len :: rest) (ht : ¬ (chB = tag ∨ chE = tag)) :
    (fileBody d s).1 = false ∧ (fileBody d s).2.1 = false ∧
    (fileBody d s).2.2.2.busOut = s.busOut ∧ (fileBody d s).2.2.2.hostOut = s.hostOut ∧
    (fileBody d s).2.2.2.busIn = s.busIn := by
  have hc : (comReadBytes 2 s).1 = 2 := by simp [comReadBytes, h]
  have h0 : (comReadBytes 2 s).2.serCmdIOBuf 0 = tag := by simp [comReadBytes, h, bufStore]
  simp only [fileBody, hc, h0, ht, ne_eq, not_true_eq_false, if_false]
  exact ⟨trivial, trivial, rfl, rfl, rfl⟩

theorem fileBody_shortpay (d : Nat) (s : State) (tag len : Nat) (rest : List Nat)
    (h : s.hostIn = tag :: len :: rest) (ht : chB = tag ∨ chE = tag) (hl : rest.length < len) :
    (fileBody d s).1 = false ∧ (fileBody d s).2.1 = false ∧
    (fileBody d s).2.2.2.busOut = s.busOut ∧ (fileBody d s).2.2.2.hostOut = s.hostOut ∧
    (fileBody d s).2.2.2.busIn = s.busIn := by
  have hc : (comReadBytes 2 s).1 = 2 := by simp [comReadBytes, h]
  have h0 : (comReadBytes 2 s).2.serCmdIOBuf 0 = tag := by simp [comReadBytes, h, bufStore]
  have h1 : (comReadBytes 2 s).2.serCmdIOBuf 1 = len := by simp [comReadBytes, h, bufStore]
  have ha : (comReadBytes len (comReadBytes 2 s).2).1 ≠ len := by
    simp [comReadBytes, h]; omega
  simp only [fileBody, hc, h0, h1, ht, ha, ne_eq, not_true_eq_false, not_false_eq_true, if_false,
    if_true]
  exact ⟨trivial, trivial, rfl, rfl, rfl⟩

theorem fileBody_full (d : Nat) (s : State) (tag len : Nat) (rest : List Nat)
    (h : s.hostIn = tag :: len :: rest) (ht : chB = tag ∨ chE = tag) (hl : len ≤ rest.length) :
    fileBody d s =
      (decide (tag = chB) && (sendPayload tag len len 0 d { s with
          serCmdIOBuf := bufStore (bufStore s.serCmdIOBuf 0 [tag, len]) 0 (rest.take len),
          hostIn := rest.drop len }).1,
        sendPayload tag len len 0 d { s with
          serCmdIOBuf := bufStore (bufStore s.serCmdIOBuf 0 [tag, len]) 0 (rest.take len),
          hostIn := rest.drop len }) := by
  have hr : comReadBytes 2 s = (2, { s with
      serCmdIOBuf := bufStore s.serCmdIOBuf 0 [tag, len], hostIn := rest }) := by
    simp [comReadBytes, h]
  have ha : comReadBytes len { s with
      serCmdIOBuf := bufStore s.serCmdIOBuf 0 [tag, len], hostIn := rest } =
      (len, { s with
        serCmdIOBuf := bufStore (bufStore s.serCmdIOBuf 0 [tag, len]) 0 (rest.take len),
        hostIn := rest.drop len }) := by
    simp [comReadBytes, hl]
  have h0 : bufStore s.serCmdIOBuf 0 [tag, len] 0 = tag := by simp [bufStore]
  have h1 : bufStore s.serCmdIOBuf 0 [tag, len] 1 = len := by simp [bufStore]
  simp only [fileBody, hr, h0, h1, ha, ht]
  simp

/-- One round of the chunk loop against the chunks the host delivered. If the
loop goes round again, the round sent the whole payload of a `B` chunk and took
it off the host link; if not, it sent a leading part of the first chunk, the
whole of it when the round succeeded. -/
theorem fileBody_gen (d : Nat) (s : State) :
    (fileBody d s).2.2.2.hostOut = s.hostOut ∧ (fileBody d s).2.2.2.busIn = s.busIn ∧
    ∃ sent, (fileBody d s).2.2.2.busOut = s.busOut ++ sent ∧
      ((fileBody d s).1 = true →
        (fileBody d s).2.2.2.hostIn.length + 2 ≤ s.hostIn.length ∧
        ∀ n, (hostChunks (n + 1) s.hostIn).flatten
          = busBytes sent ++ (hostChunks n (fileBody d s).2.2.2.hostIn).flatten) ∧
      ((fileBody d s).1 = false →
        ∀ n, busBytes sent <+: (hostChunks (n + 1) s.hostIn).flatten ∧
          ((fileBody d s).2.1 = true → busBytes sent = (hostChunks (n + 1) s.hostIn).flatten)) := by
  have hfail : ∀ (hn : ∀ n, hostChunks (n + 1) s.hostIn = [])
      (hb : (fileBody d s).1 = false ∧ (fileBody d s).2.1 = false ∧
        (fileBody d s).2.2.2.busOut = s.busOut ∧ (fileBody d s).2.2.2.hostOut = s.hostOut ∧
        (fileBody d s).2.2.2.busIn = s.busIn),
      (fileBody d s).2.2.2.hostOut = s.hostOut ∧ (fileBody d s).2.2.2.busIn = s.busIn ∧
      ∃ sent, (fileBody d s).2.2.2.busOut = s.busOut ++ sent ∧
        ((fileBody d s).1 = true →
          (fileBody d s).2.2.2.hostIn.length + 2 ≤ s.hostIn.length ∧
          ∀ n, (hostChunks (n + 1) s.hostIn).flatten
            = busBytes sent ++ (hostChunks n (fileBody d s).2.2.2.hostIn).flatten) ∧
        ((fileBody d s).1 = false →
          ∀ n, busBytes sent <+: (hostChunks (n + 1) s.hostIn).flatten ∧
            ((fileBody d s).2.1 = true →
              busBytes sent = (hostChunks (n + 1) s.hostIn).flatten)) := by
    intro hn hb
    refine ⟨hb.2.2.2.1, hb.2.2.2.2, [], by simp [hb.2.2.1], ?_, ?_⟩
    · intro h; rw [hb.1] at h; exact absurd h (by simp)
    · intro _ n
      refine ⟨by simp [busBytes], ?_⟩
      intro h; rw [hb.2.1] at h; exact absurd h (by simp)
  have hcases : s.hostIn.length < 2 ∨ ∃ tag len rest, s.hostIn = tag :: len :: rest := by
    cases h : s.hostIn with
    | nil => left; simp
    | cons a l =>
      cases l with
      | nil => left; simp
      | cons b r => right; exact ⟨a, b, r, rfl⟩
  rcases hcases with hlt | ⟨tag, len, rest, hs⟩
  · refine hfail (fun n => ?_) (fileBody_short d s hlt)
    cases h : s.hostIn with
    | nil => rfl
    | cons a l =>
      cases l with
      | nil => rfl
      | cons b r => rw [h] at hlt; simp at hlt; omega
  · by_cases ht : chB = tag ∨ chE = tag
    · by_cases hl : len ≤ rest.length
      · have hf := fileBody_full d s tag len rest hs ht hl
        obtain ⟨g1, g2, g3, sent, m, hm, g4, g5, g6⟩ := sendPayload_gen tag len len 0 d
          { s with serCmdIOBuf := bufStore (bufStore s.serCmdIOBuf 0 [tag, len]) 0 (rest.take len),
                   hostIn := rest.drop len }
        have hlen : (rest.take len).length = len := by simp [hl]
        have g5' : busBytes sent = (rest.take len).take m := by
          rw [g5]; exact map_range_take _ _ _ (by omega)
        have hch : ∀ n, hostChunks (n + 1) (tag :: len :: rest)
            = rest.take len :: (if chB = tag then hostChunks n (rest.drop len) else []) := by
          intro n; simp [hostChunks, ht, hl]
        rw [hf, hs]
        refine ⟨g2, g3, sent, g4, ?_, ?_⟩
        · intro h
          simp only [Bool.and_eq_true, decide_eq_true_eq] at h
          have hmk : m = len := g6 h.2
          have hB : chB = tag := h.1.symm
          refine ⟨?_, ?_⟩
          · simp only [g1]; simp
          · intro n
            rw [hch n, g5', hmk, g1]
            simp [hB, List.take_take]
        · intro h n
          rw [hch n, g5']
          refine ⟨?_, ?_⟩
          · rw [List.flatten_cons]
            exact (List.take_prefix m _).trans (List.prefix_append _ _)
          · intro hok
            have hmk : m = len := g6 hok
            have hB : ¬ chB = tag := by
              intro hB
              have hok2 : (sendPayload tag len len 0 d { s with
                  serCmdIOBuf := bufStore (bufStore s.serCmdIOBuf 0 [tag, len]) 0 (rest.take len),
                  hostIn := rest.drop len }).1 = true := hok
              have h2 := h
              simp only [hok2, Bool.and_true, decide_eq_false_iff_not] at h2
              exact h2 hB.symm
            simp [hB, hmk, List.take_take]
      · exact hfail (fun n => by simp [hs, hostChunks, hl])
          (fileBody_shortpay d s tag len rest hs ht (by omega))
    · exact hfail (fun n => by simp [hs, hostChunks, ht])
        (fileBody_badtag d s tag len rest hs ht)

/-- The chunk loop against the chunks the host delivered: what it sends is a
leading part of their bytes, and all of them when it ends with success. -/
theorem fileLoop_gen (fuel : Nat) : ∀ (d : Nat) (s : State) (r : Bool × Nat × State) (n : Nat),
    fuel ≤ n → fileLoop fuel d s = some r →
    r.2.2.hostOut = s.hostOut ∧ r.2.2.busIn = s.busIn ∧
    ∃ sent, r.2.2.busOut = s.busOut ++ sent ∧
      busBytes sent <+: (hostChunks n s.hostIn).flatten ∧
      (r.1 = true → busBytes sent = (hostChunks n s.hostIn).flatten) := by
  induction fuel with
  | zero => intro d s r n _ h; simp [fileLoop] at h
  | succ f ih =>
    intro d s r n hn h
    obtain ⟨k, rfl⟩ : ∃ k, n = k + 1 := ⟨n - 1, by omega⟩
    obtain ⟨b1, b2, sent1, b3, b4, b5⟩ := fileBody_gen d s
    simp only [fileLoop] at h
    cases hag : (fileBody d s).1
    · simp only [hag, Bool.false_eq_true, if_false, Option.some.injEq] at h
      subst h
      exact ⟨b1, b2, sent1, b3, (b5 hag k).1, (b5 hag k).2⟩
    · simp only [hag, if_true] at h
      obtain ⟨c1, c2, sent2, c3, c4, c5⟩ := ih _ _ r k (by omega) h
      obtain ⟨_, b6⟩ := b4 hag
      refine ⟨c1.trans b1, c2.trans b2, sent1 ++ sent2, ?_, ?_, ?_⟩
      · rw [c3, b3, List.append_assoc]
      · rw [b6 k, busBytes_append]
        exact (List.prefix_append_right_inj _).2 c4
      · intro hr
        rw [b6 k, busBytes_append, c5 hr]

theorem drainLoop_eq (l : List Nat) : ∀ (s : State),
    (drainLoop l s).hostIn = s.hostIn.drop l.length ∧ (drainLoop l s).busOut = s.busOut ∧
    (drainLoop l s).hostOut = s.hostOut := by
  induction l with
  | nil => intro s; simp [drainLoop]
  | cons a l ih =>
    intro s
    obtain ⟨h1, h2, h3⟩ := ih (comRead s)
    refine ⟨?_, h2, h3⟩
    rw [drainLoop, h1]
    simp [comRead, List.drop_succ_cons, List.tail_drop]

theorem sendFileStart_eq (s : State) (hi lo : Nat) (rest : List Nat)
    (h : s.hostIn = chS :: hi :: lo :: rest) :
    (sendFileStart s).hostIn = rest ∧ (sendFileStart s).busOut = s.busOut ∧
    (comReadBytes 3 (comWrite chS s)).1 = 3 ∧
    (comReadBytes 3 (comWrite chS s)).2.serCmdIOBuf 0 = chS := by
  simp [sendFileStart, comWrite, comReadBytes, h, bufStore]

theorem sendFile_bad_size (fuel : Nat) (s : State)
    (h : ¬ ∃ hi lo rest, s.hostIn = chS :: hi :: lo :: rest) :
    sendFile fuel s = some (comReadBytes 3 (comWrite chS s)).2 := by
  have hc : 3 ≠ (comReadBytes 3 (comWrite chS s)).1 ∨
      (comReadBytes 3 (comWrite chS s)).2.serCmdIOBuf 0 ≠ chS := by
    cases hs : s.hostIn with
    | nil => left; simp [comReadBytes, comWrite, hs]
    | cons a l =>
      cases l with
      | nil => left; simp [comReadBytes, comWrite, hs]
      | cons b l =>
        cases l with
        | nil => left; simp [comReadBytes, comWrite, hs]
        | cons c l =>
          right
          have : a ≠ chS := by
            intro ha
            exact h ⟨b, c, l, by rw [hs, ha]⟩
          simpa [comReadBytes, comWrite, hs, bufStore] using this
  simp only [sendFile, hc, if_true]

/-- C19. Whenever `sendFile` returns, the bytes it put on the bus are, in
order, a leading part of the payloads of the chunks the host delivered after
the size reply (counted up to any bound `n` not below the fuel), and all of
them when the chunk loop ended with success. When the size reply is not 3
bytes starting with `S`, nothing is put on the bus and the only write to the
host is the `S` request: the `N` request is never made. -/
theorem sendFile_bus_bytes (fuel n : Nat) (s s1 : State) (hn : fuel ≤ n)
    (h : sendFile fuel s = some s1) :
    ∃ sent, s1.busOut = s.busOut ++ sent ∧
      busBytes sent <+: (hostChunks n (s.hostIn.drop 3)).flatten ∧
      ((∃ hi lo rest, s.hostIn = chS :: hi :: lo :: rest) →
        (∃ d s2, fileLoop fuel 0 (sendFileStart s) = some (true, d, s2)) →
        busBytes sent = (hostChunks n (s.hostIn.drop 3)).flatten) ∧
      ((¬ ∃ hi lo rest, s.hostIn = chS :: hi :: lo :: rest) →
        sent = [] ∧ s1.hostOut = s.hostOut ++ [[chS]]) := by
  by_cases hv : ∃ hi lo rest, s.hostIn = chS :: hi :: lo :: rest
  · obtain ⟨hi, lo, rest, hs⟩ := hv
    obtain ⟨e1, e2, e3, e4⟩ := sendFileStart_eq s hi lo rest hs
    have hd : s.hostIn.drop 3 = rest := by simp [hs]
    cases hl : fileLoop fuel 0 (sendFileStart s) with
    | none =>
      have hl2 : fileLoop fuel 0
          (comWrite 256 (comWrite chN (comReadBytes 3 (comWrite chS s)).2)) = none := hl
      simp [sendFile, e3, e4, hl2] at h
    | some r =>
      have hl2 : fileLoop fuel 0
          (comWrite 256 (comWrite chN (comReadBytes 3 (comWrite chS s)).2)) = some r := hl
      obtain ⟨_, _, sent, c3, c4, c5⟩ := fileLoop_gen fuel 0 (sendFileStart s) r n hn hl
      rw [e1] at c4 c5
      rw [e2] at c3
      have hin : (if r.1 = false ∧ comAvailable r.2.2 ≠ 0 then drainLoop r.2.2.hostIn r.2.2
          else r.2.2).busOut = r.2.2.busOut := by
        split
        · exact (drainLoop_eq _ _).2.1
        · rfl
      have hb : s1.busOut = r.2.2.busOut := by
        simp only [sendFile, e3, e4, hl2] at h
        simp only [ne_eq, not_true_eq_false, or_self, if_false] at h
        split at h
        · simp only [Option.some.injEq] at h
          rw [← h]
          exact hin
        · simp only [Option.some.injEq] at h
          rw [← h]
          exact hin
      refine ⟨sent, by rw [hb, c3], by rw [hd]; exact c4, ?_, ?_⟩
      · intro _ hsucc
        obtain ⟨d, s2, h2⟩ := hsucc
        rw [hd]
        exact c5 (by simpa using congrArg (fun o => o.map (fun x => x.1)) h2)
      · intro hnv
        exact absurd ⟨hi, lo, rest, hs⟩ hnv
  · have hbad := sendFile_bad_size fuel s hv
    rw [hbad] at h
    simp at h
    refine ⟨[], by rw [← h]; simp [comReadBytes, comWrite], by simp [busBytes], ?_, ?_⟩
    · intro hvv; exact absurd hvv hv
    · intro _
      exact ⟨rfl, by rw [← h]; simp [comReadBytes, comWrite]; decide⟩

theorem sendFile_bus_bytes_witness :
    ∃ sent, ((sendFile 3 { State.init with
          hostIn := [83, 0, 3, 66, 2, 7, 8, 69, 1, 9], busAccept := [true, true, false] }).get
          (by decide)).busOut
        = ({ State.init with
          hostIn := [83, 0, 3, 66, 2, 7, 8, 69, 1, 9], busAccept := [true, true, false] }
          : State).busOut ++ sent ∧
      busBytes sent <+: (hostChunks 3 (([83, 0, 3, 66, 2, 7, 8, 69, 1, 9] : List Nat).drop 3)).flatten ∧
      ((∃ hi lo rest, [83, 0, 3, 66, 2, 7, 8, 69, 1, 9] = chS :: hi :: lo :: rest) →
        (∃ d s2, fileLoop 3 0 (sendFileStart { State.init with
          hostIn := [83, 0, 3, 66, 2, 7, 8, 69, 1, 9], busAccept := [true, true, false] })
            = some (true, d, s2)) →
        busBytes sent = (hostChunks 3 (([83, 0, 3, 66, 2, 7, 8, 69, 1, 9] : List Nat).drop 3)).flatten) ∧
      ((¬ ∃ hi lo rest, [83, 0, 3, 66, 2, 7, 8, 69, 1, 9] = chS :: hi :: lo :: rest) →
        sent = [] ∧ ((sendFile 3 { State.init with
          hostIn := [83, 0, 3, 66, 2, 7, 8, 69, 1, 9], busAccept := [true, true, false] }).get
          (by decide)).hostOut = [] ++ [[chS]]) :=
  sendFile_bus_bytes 3 3 { State.init with
      hostIn := [83, 0, 3, 66, 2, 7, 8, 69, 1, 9], busAccept := [true, true, false] } _
    (by decide) (Option.some_get _).symm

/-! ## Saving a file: bounds -/

theorem bufStore_beyond (buf : Nat → Nat) (off : Nat) (bs : List Nat) (j : Nat)
    (h : off + bs.length ≤ j) : bufStore buf off bs j = buf j := by
  have h1 : ¬ j < off := by omega
  have h2 : bs.length ≤ j - off := by omega
  simp [bufStore, h1, List.getElem?_eq_none h2]

/-- The chunks of a bus transfer that ends: payloads of 1 to 238 bytes, all but
the last of 238, and no index of the buffer from 240 on is changed. -/
theorem saveLoop_bounds (eoi err inner : Nat) (hin : 238 ≤ inner) (fuel : Nat) :
    ∀ (pre : List (Nat × Nat)) (s : State) (b st : Nat) (rest : List (Nat × Nat)),
    s.serCmdIOBuf 0 = chW →
    s.busIn = pre ++ (b, st) :: rest → (∀ x ∈ pre, busDone eoi err x.2 = false) →
    busDone eoi err st = true → pre.length < fuel →
    ∃ (s1 : State) (payloads : List (List Nat)), saveLoop eoi err inner fuel s = some s1 ∧
      s1.hostOut = s.hostOut ++ payloads.map saveFrame ∧ payloads ≠ [] ∧
      (∀ p ∈ payloads, 1 ≤ p.length ∧ p.length ≤ 238) ∧
      (∀ p ∈ payloads.dropLast, p.length = 238) ∧
      (∀ j, 240 ≤ j → s1.serCmdIOBuf j = s.serCmdIOBuf j) := by
  induction fuel with
  | zero => intro pre s b st rest _ _ _ _ hf; simp at hf
  | succ f ih =>
    intro pre s b st rest hW h hpre hst hf
    by_cases hshort : pre.length + 1 ≤ 238
    · obtain ⟨s1, h1, h2, h3, h4⟩ := saveInner_last eoi err pre inner 2 s b st rest h hpre hst
        (by omega) (by omega)
      refine ⟨comWriteBuf ((2 + pre.length + 1) % 256)
        (bufSet 1 [(2 + pre.length + 1) % 256] s1), [pre.map Prod.fst ++ [b]],
        ?_, ?_, by simp, ?_, by simp, ?_⟩
      · simp only [saveLoop, h1]
        simp
      · have hl : (2 + pre.length + 1) % 256 = (pre.map Prod.fst ++ [b]).length + 2 := by
          simp; omega
        simp only [comWriteBuf, bufSet, h4, h3, hl, bufBytes_frame, hW]
        simp [saveFrame]
      · intro p hp
        simp at hp
        subst hp
        simp
        omega
      · intro j hj
        simp only [comWriteBuf, bufSet, h4]
        rw [bufStore_beyond _ _ _ _ (by simp; omega),
          bufStore_beyond _ _ _ _ (by simp; omega)]
    · have hsplit : pre = pre.take 238 ++ pre.drop 238 := (List.take_append_drop 238 pre).symm
      have hlen : (pre.take 238).length = 238 := by simp; omega
      obtain ⟨s1, h1, h2, h3, h4⟩ := saveInner_full eoi err (pre.take 238) inner 2 s
        (pre.drop 238 ++ (b, st) :: rest)
        (by rw [← List.append_assoc, ← hsplit]; exact h)
        (fun x hx => hpre x (List.mem_of_mem_take hx))
        (by intro h0; rw [h0] at hlen; simp at hlen) (by rw [hlen]) (by rw [hlen]; exact hin)
      obtain ⟨s2, ps, g1, g3, g4, g5, g6, g7⟩ := ih (pre.drop 238)
        (comWriteBuf (0xf0 % 256) (bufSet 1 [0xf0 % 256] s1)) b st rest
        (by simp [comWriteBuf, bufSet, h4, bufStore, hW])
        (by simpa [comWriteBuf, bufSet] using h2)
        (fun x hx => hpre x (List.mem_of_mem_drop hx)) hst (by simp; omega)
      refine ⟨s2, (pre.take 238).map Prod.fst :: ps, ?_, ?_, by simp, ?_, ?_, ?_⟩
      · simp only [saveLoop, h1]
        simpa using g1
      · rw [g3]
        have hl : 0xf0 % 256 = ((pre.take 238).map Prod.fst).length + 2 := by
          rw [List.length_map, hlen]
        simp only [comWriteBuf, bufSet, h4, h3]
        rw [hl, bufBytes_frame, hW]
        simp [saveFrame]
      · intro p hp
        rcases List.mem_cons.1 hp with hp | hp
        · subst hp; rw [List.length_map, hlen]; omega
        · exact g5 p hp
      · intro p hp
        rw [List.dropLast_cons_of_ne_nil g4] at hp
        rcases List.mem_cons.1 hp with hp | hp
        · subst hp; rw [List.length_map, hlen]
        · exact g6 p hp
      · intro j hj
        rw [g7 j hj]
        simp only [comWriteBuf, bufSet, h4]
        rw [bufStore_beyond _ _ _ _ (by simp; omega),
          bufStore_beyond _ _ _ _ (by simp; omega)]

/-- C20 (amended). In a `saveFile` run that ends, the received bytes are
stored at indices 2 to 239 of the buffer and the only other writes are `W` at
index 0 and the length at index 1, so no index from 240 on is changed; every
chunk pushed to the host is 3 to 240 bytes long (1 to 238 payload bytes), its
length byte is that length, below 256; and every chunk but the last carries
238 payload bytes. -/
theorem saveFile_bounds (eoi err fuel : Nat) (s : State) (pre : List (Nat × Nat))
    (b st : Nat) (rest : List (Nat × Nat))
    (h : s.busIn = pre ++ (b, st) :: rest) (hpre : ∀ x ∈ pre, busDone eoi err x.2 = false)
    (hst : busDone eoi err st = true) (hf1 : 238 ≤ fuel) (hf2 : pre.length < fuel) :
    ∃ (s1 : State) (payloads : List (List Nat)), saveFile eoi err fuel s = some s1 ∧
      s1.hostOut = s.hostOut ++ payloads.map saveFrame ∧
      (∀ p ∈ payloads, 1 ≤ p.length ∧ p.length ≤ 238) ∧
      (∀ p ∈ payloads.dropLast, p.length = 238) ∧
      (∀ c ∈ payloads.map saveFrame,
        3 ≤ c.length ∧ c.length ≤ 240 ∧ c.getD 1 0 = c.length ∧ c.getD 1 0 < 256) ∧
      (∀ j, 240 ≤ j → s1.serCmdIOBuf j = s.serCmdIOBuf j) := by
  obtain ⟨s1, ps, g1, g3, _, g5, g6, g7⟩ := saveLoop_bounds eoi err fuel hf1 fuel pre
    (bufSet 0 [chW] s) b st rest (by simp [bufSet, bufStore]) h hpre hst hf2
  refine ⟨s1, ps, g1, g3, g5, g6, ?_, ?_⟩
  · intro c hc
    obtain ⟨p, hp, rfl⟩ := List.mem_map.1 hc
    have := g5 p hp
    simp [saveFrame]
    omega
  · intro j hj
    rw [g7 j hj]
    simp only [bufSet]
    exact bufStore_beyond _ _ _ _ (by simp; omega)

theorem saveFile_bounds_witness :
    ∃ (s1 : State) (payloads : List (List Nat)),
      saveFile 1 4 238 { State.init with busIn := [(7, 0), (8, 4)] } = some s1 ∧
      s1.hostOut = [] ++ payloads.map saveFrame ∧
      (∀ p ∈ payloads, 1 ≤ p.length ∧ p.length ≤ 238) ∧
      (∀ p ∈ payloads.dropLast, p.length = 238) ∧
      (∀ c ∈ payloads.map saveFrame,
        3 ≤ c.length ∧ c.length ≤ 240 ∧ c.getD 1 0 = c.length ∧ c.getD 1 0 < 256) ∧
      (∀ j, 240 ≤ j → s1.serCmdIOBuf j = State.init.serCmdIOBuf j) :=
  saveFile_bounds 1 4 238 { State.init with busIn := [(7, 0), (8, 4)] }
    [(7, 0)] 8 4 [] (by rfl) (by decide) (by decide) (by decide) (by decide)

/-- C20, as stated, fails: `saveFile` also writes the buffer at index 0 (`W`)
and at index 1 (the length); from a buffer of zeros a run that receives one
byte leaves 87 at index 0 and 3 at index 1. -/
theorem saveFile_writes_header :
    (State.init.serCmdIOBuf 0, State.init.serCmdIOBuf 1,
      (saveFile 1 4 238 { State.init with busIn := [(7, 1)] }).map
        (fun s => (s.serCmdIOBuf 0, s.serCmdIOBuf 1)))
      = (0, 0, some (87, 3)) := by
  decide

end Iec2lib
